import Mathlib

/-!
Verification of the concurrent classification-batch pipeline of
`google_calendar_exporter/filters/claude_event_filter.py` (module
`ClaudeEventFilter`) and its data models
(`google_calendar_exporter/models/filtered_event.py`,
`google_calendar_exporter/models/event.py`).

The Python code is shallowly embedded: pure methods become Lean
functions; the external model call and `json.loads` are abstracted as
parameters (`ApiOutcome`, a `parse` oracle); float confidence scores are
modelled as rationals (the comparisons used by the code behave
identically on the literals involved); file I/O is modelled as a list of
attempted filesystem operations.
-/

namespace GCalFilter

/-- Start or end time of a calendar event (`EventDateTime` in
`models/event.py`): an all-day `date` or a timed `dateTime`, each
optional. -/
structure EventDateTime where
  date : Option String
  dateTime : Option String
deriving DecidableEq, Repr

/-- Calendar event (`Event` in `models/event.py`), restricted to the
fields the filter pipeline reads.  `start`/`end` are optional because the
filter code guards every access with a truthiness check
(`if event.start`). -/
structure Event where
  id : String
  summary : String
  description : Option String
  status : String
  start : Option EventDateTime
  «end» : Option EventDateTime
  all_day : Bool
deriving DecidableEq, Repr

/-- Classification attached to an event by Claude (`EventClassification`
in `models/filtered_event.py`).  `confidence_score` is a Python float,
modelled as a rational. -/
structure EventClassification where
  keep_event : Bool
  goal_alignment : List String
  focus_area_alignment : List String
  eisenhower_category : String
  confidence_score : Rat
  reasoning : String
deriving DecidableEq, Repr

/-- Output record (`FilteredEvent` in `models/filtered_event.py`). -/
structure FilteredEvent where
  id : String
  summary : String
  description : Option String
  start_date : Option String
  end_date : Option String
  is_all_day : Bool
  status : String
  calendar_name : String
  source : String := "calendar_events"
  classification : Option EventClassification := none
  needs_review : Bool := false
  review_reason : Option String := none
deriving DecidableEq, Repr

/-- Python truthiness on an optional string: `None` and the empty string
are both falsy.  Used wherever the source tests `if some_string:`. -/
def truthy (o : Option String) : Option String :=
  match o with
  | some s => if s = "" then none else some s
  | none => none

/-! ### String primitives

The filter manipulates Python strings with `split`, `strip`,
`startswith`/`endswith` and lexicographic comparison.  They are modelled
here on character lists with structural recursion (Lean's built-in
position-based `String` procedures are opaque to kernel reduction, so
concrete runs could not be evaluated through them).  Python compares
strings by code points, as `Char`'s order does. -/

/-- Lexicographic code-point comparison of character lists: the model of
Python's string `<`. -/
def charListLt : List Char → List Char → Bool
  | _, [] => false
  | [], _ :: _ => true
  | a :: as, b :: bs =>
    if a < b then true
    else if b < a then false
    else charListLt as bs

/-- Python string `<`. -/
def pyStrLt (a b : String) : Bool := charListLt a.toList b.toList

/-- Match `sep` against the front of the list, returning the remainder
past the separator on success. -/
def matchSep : List Char → List Char → Option (List Char)
  | [], cs => some cs
  | _ :: _, [] => none
  | p :: ps, c :: cs => if p == c then matchSep ps cs else none

/-- Fuelled left-to-right non-overlapping splitting scan; with fuel at
least the haystack length plus one, the fuel never runs out (every use
below supplies that and a nonempty separator). -/
def splitFuel (sep : List Char) : Nat → List Char → List Char → List (List Char)
  | 0, rest, cur => [cur.reverse ++ rest]
  | _ + 1, [], cur => [cur.reverse]
  | fuel + 1, c :: cs, cur =>
    match matchSep sep (c :: cs) with
    | some rest => cur.reverse :: splitFuel sep fuel rest []
    | none => splitFuel sep fuel cs (c :: cur)

/-- Python `str.split(sep)` for a nonempty separator. -/
def pySplit (s sep : String) : List String :=
  (splitFuel sep.toList (s.toList.length + 1) s.toList []).map String.mk

/-- Python `str.strip()`: drop whitespace from both ends. -/
def pyTrim (s : String) : String :=
  String.mk (((s.toList.dropWhile Char.isWhitespace).reverse.dropWhile
    Char.isWhitespace).reverse)

/-- Does the second list begin with the first? -/
def beginsWith : List Char → List Char → Bool
  | [], _ => true
  | _ :: _, [] => false
  | p :: ps, c :: cs => p == c && beginsWith ps cs

/-- Python `str.startswith`. -/
def pyStartsWith (s pat : String) : Bool := beginsWith pat.toList s.toList

/-- Python `str.endswith`. -/
def pyEndsWith (s pat : String) : Bool :=
  beginsWith pat.toList.reverse s.toList.reverse

/-- Date part of an RFC3339 datetime string: Python
`value.split('T')[0]`. -/
def dateOnly (s : String) : String :=
  (pySplit s "T").headI

/-- Embeds `FilteredEvent.from_event`: extract the date strings from
`event.start` / `event.end` (all-day `date` wins over `dateTime` when
truthy) and copy the basic fields.  `classification`, `needs_review`,
`review_reason` keep their dataclass defaults. -/
def FilteredEvent.from_event (event : Event) (calendar_name : String) : FilteredEvent :=
  let start_date :=
    match event.start with
    | none => none
    | some sdt =>
      match truthy sdt.date with
      | some d => some d
      | none => (truthy sdt.dateTime).map dateOnly
  let end_date :=
    match event.«end» with
    | none => none
    | some edt =>
      match truthy edt.date with
      | some d => some d
      | none => (truthy edt.dateTime).map dateOnly
  { id := event.id
    summary := event.summary
    description := event.description
    start_date := start_date
    end_date := end_date
    is_all_day := event.all_day
    status := event.status
    calendar_name := calendar_name }

/-! ## Collection step (`filter_events`, the loop over calendars)

The source skips an event when it carries a truthy all-day start date
that is lexicographically before today's date string, and when its
status is `"cancelled"`; every other event is collected as an
`(event, calendar_name)` pair, calendars in input order. -/

/-- True when the source's past-event guard fires: the event has a
truthy `start.date` and that date string compares `<` against today's
`YYYY-MM-DD` string. -/
def isPastSkip (today : String) (e : Event) : Bool :=
  match e.start with
  | some sdt =>
    match truthy sdt.date with
    | some d => pyStrLt d today
    | none => false
  | none => false

/-- Embeds the collection loop of `ClaudeEventFilter.filter_events`:
for each calendar in order, keep the events that are neither past
(all-day date before `today`) nor cancelled, paired with the calendar
name. -/
def collect_events (today : String) (calendars : List (String × List Event)) :
    List (Event × String) :=
  calendars.flatMap (fun c =>
    (c.2.filter (fun e => !(isPastSkip today e) && !(e.status == "cancelled"))).map
      (fun e => (e, c.1)))

/-! ## Batching (`filter_events`, the `range(0, len, batch_size)` loop) -/

/-- Fuelled slicing recursion behind `make_batches` (structural on the
fuel so that concrete runs reduce in the kernel; the fuel never runs out
when it is at least the list length). -/
def makeBatchesFuel {α : Type} : Nat → List α → Nat → List (List α)
  | 0, xs, _ => if xs.isEmpty then [] else [xs]
  | _ + 1, [], _ => []
  | fuel + 1, x :: tl, bs =>
    if bs = 0 then []
    else (x :: tl).take bs :: makeBatchesFuel fuel ((x :: tl).drop bs) bs

/-- Embeds the batching loop: successive slices
`events_to_process[i:i+batch_size]`.  Python's `range` with step 0
raises, so the `bs = 0` branch is unreachable under the positive
`batch_size` precondition; it is given a value only to keep the function
total. -/
def make_batches {α : Type} (xs : List α) (bs : Nat) : List (List α) :=
  makeBatchesFuel (xs.length + 1) xs bs

/-! ## Result aggregation (`_deduplicate_events`, `_sort_events`) -/

/-- Confidence used by deduplication: the classification's score, or 0
when the event has no classification. -/
def confidenceOf (e : FilteredEvent) : Rat :=
  match e.classification with
  | some c => c.confidence_score
  | none => 0

/-- Lookup in the insertion-ordered id-to-event map that embeds the
Python dict `unique_events`. -/
def alookup (id : String) : List (String × FilteredEvent) → Option FilteredEvent
  | [] => none
  | p :: tl => if p.1 = id then some p.2 else alookup id tl

/-- One iteration of the `_deduplicate_events` loop: first occurrence of
an id is inserted; a later occurrence replaces the stored entry exactly
when its confidence is strictly higher (`new_confidence >
existing_confidence`), keeping the key's position, as a Python dict
update does. -/
def dedup_step (acc : List (String × FilteredEvent)) (event : FilteredEvent) :
    List (String × FilteredEvent) :=
  match alookup event.id acc with
  | none => acc ++ [(event.id, event)]
  | some existing =>
    if confidenceOf existing < confidenceOf event then
      acc.map (fun p => if p.1 = event.id then (event.id, event) else p)
    else acc

/-- Embeds `ClaudeEventFilter._deduplicate_events`: fold the events into
the insertion-ordered map and return `list(unique_events.values())`. -/
def deduplicate_events (events : List FilteredEvent) : List FilteredEvent :=
  (events.foldl dedup_step []).map Prod.snd

/-- Embeds the `priority_order` dict lookup with default 3
(`priority_order.get(category, 3)`). -/
def priority_order (cat : String) : Nat :=
  if cat = "Urgent & Important" then 0
  else if cat = "Important & Not Urgent" then 1
  else if cat = "Urgent & Not Important" then 2
  else if cat = "Not Urgent & Not Important" then 3
  else 3

/-- Sort key of `_sort_events`: `x.start_date or "9999-12-31"` (Python
`or`, so a missing or empty date becomes the far-future string), paired
with the Eisenhower rank of the classification's category, where a
missing classification contributes `"Not Urgent & Not Important"`. -/
def sortKey (x : FilteredEvent) : String × Nat :=
  (match x.start_date with
   | some d => if d = "" then "9999-12-31" else d
   | none => "9999-12-31",
   priority_order
     (match x.classification with
      | some c => c.eisenhower_category
      | none => "Not Urgent & Not Important"))

/-- Ordering used by the Python tuple comparison inside `sorted`. -/
def sortLE (a b : FilteredEvent) : Prop :=
  pyStrLt (sortKey a).1 (sortKey b).1 = true ∨
    ((sortKey a).1 = (sortKey b).1 ∧ (sortKey a).2 ≤ (sortKey b).2)

instance : DecidableRel sortLE := fun a b => by
  unfold sortLE
  infer_instance

/-- Embeds `ClaudeEventFilter._sort_events`: a stable sort on the tuple
key `(start_date-or-far-future, eisenhower rank)`. -/
def sort_events (events : List FilteredEvent) : List FilteredEvent :=
  events.insertionSort sortLE

/-! ## Classifier client (`_async_batch_classify_events`)

The external pieces are abstracted: the Anthropic call's outcome is an
`ApiOutcome` argument, and `json.loads` plus the
`result.get("classifications", [])` projection is a `parse` oracle
returning the list of per-item verdict objects.  Everything around them
(the three JSON-extraction stages, the brace sanity check, the id-keyed
matching with field defaults, and the blanket `except` that turns any
failure into an all-`None` result) is embedded faithfully. -/

/-- Left brace character, written via its code point. -/
def lbrace : Char := Char.ofNat 123

/-- Right brace character, written via its code point. -/
def rbrace : Char := Char.ofNat 125

/-- String holding a single left brace. -/
def lbraceStr : String := "\x7b"

/-- String holding a single right brace. -/
def rbraceStr : String := "\x7d"

/-- Index of the first occurrence of a character (Python `str.find`,
`none` for -1). -/
def firstIndexOf (c : Char) : List Char → Option Nat
  | [] => none
  | d :: tl => if d = c then some 0 else (firstIndexOf c tl).map (· + 1)

/-- Index of the last occurrence of a character (Python `str.rfind`,
`none` for -1). -/
def lastIndexOf (c : Char) (cs : List Char) : Option Nat :=
  (firstIndexOf c cs.reverse).map (fun i => cs.length - 1 - i)

/-- Error raised by stage 3 of the extraction when the response holds no
brace at all (`ValueError("No JSON structure found in response")`). -/
inductive ExtractError
  | noJsonStructure
deriving DecidableEq, Repr

/-- Embeds the three-stage JSON extraction of
`_async_batch_classify_events`: (1) a fenced block tagged `json`,
(2) any fenced block, (3) the substring from the first left brace to the
last right brace when the latter comes later, falling back to the whole
stripped content; with no brace present at all, the stage raises. -/
def extractJson (content : String) : Except ExtractError String :=
  let fencedJson := pySplit content "```json"
  if 1 < fencedJson.length then
    Except.ok (pyTrim ((pySplit (fencedJson.getD 1 "") "```").headI))
  else
    let fenced := pySplit content "```"
    if 1 < fenced.length then
      Except.ok (pyTrim ((pySplit (fenced.getD 1 "") "```").headI))
    else
      let cs := content.toList
      match firstIndexOf lbrace cs with
      | some startIdx =>
        (match lastIndexOf rbrace cs with
         | some endIdx =>
           if startIdx < endIdx then
             Except.ok (pyTrim (String.mk ((cs.drop startIdx).take (endIdx + 1 - startIdx))))
           else Except.ok (pyTrim content)
         | none => Except.ok (pyTrim content))
      | none => Except.error ExtractError.noJsonStructure

/-- One per-item verdict object of the parsed response: each field is
read with `dict.get` and so may be absent. -/
structure Verdict where
  event_id : Option String
  keep_event : Option Bool
  goal_alignment : Option (List String)
  focus_area_alignment : Option (List String)
  eisenhower_category : Option String
  confidence_score : Option Rat
  reasoning : Option String
deriving DecidableEq, Repr

/-- Embeds the lookup dict
`{c.get("event_id"): c for c in classifications}` followed by
`.get(event_id)`: among the verdicts carrying this id, the last one
wins (later dict-comprehension entries overwrite earlier ones). -/
def lookupVerdict (vs : List Verdict) (id : String) : Option Verdict :=
  (vs.filter (fun v => v.event_id = some id)).getLast?

/-- Embeds the `EventClassification(...)` construction at the end of
`_async_batch_classify_events`: every missing field is replaced by its
fixed default. -/
def defaultedClassification (v : Verdict) : EventClassification :=
  { keep_event := v.keep_event.getD false
    goal_alignment := v.goal_alignment.getD []
    focus_area_alignment := v.focus_area_alignment.getD []
    eisenhower_category := v.eisenhower_category.getD "Not Urgent & Not Important"
    confidence_score := v.confidence_score.getD 0
    reasoning := v.reasoning.getD "No reasoning provided" }

/-- Batch entry as returned by the classifier client: event, calendar
name, and the classification when one was matched. -/
abbrev ClassifiedTriple := Event × String × Option EventClassification

/-- Embeds the matching loop: pair every batch event with the verdict
looked up under its id, defaults filled in; an id with no verdict gives
`none`. -/
def matchVerdicts (vs : List Verdict) (batch : List (Event × String)) :
    List ClassifiedTriple :=
  batch.map (fun x =>
    match lookupVerdict vs x.1.id with
    | none => (x.1, x.2, none)
    | some v => (x.1, x.2, some (defaultedClassification v)))

/-- Errors raised inside the `try` block of
`_async_batch_classify_events` after the response arrived: stage-3
extraction with no brace, the brace sanity check, and `json.loads`
failure. -/
inductive ClassifyError
  | noJsonStructure
  | notProperJson
  | decodeError
deriving DecidableEq, Repr

/-- Body of the `try` block after the API returned `content`: extract,
sanity-check the braces, parse (through the oracle), match verdicts.
Each failure raises a distinct error. -/
def classifyBody (parse : String → Option (List Verdict)) (content : String)
    (batch : List (Event × String)) : Except ClassifyError (List ClassifiedTriple) :=
  match extractJson content with
  | Except.error _ => Except.error ClassifyError.noJsonStructure
  | Except.ok jsonText =>
    if pyStartsWith jsonText lbraceStr && pyEndsWith jsonText rbraceStr then
      match parse jsonText with
      | none => Except.error ClassifyError.decodeError
      | some vs => Except.ok (matchVerdicts vs batch)
    else Except.error ClassifyError.notProperJson

/-- Outcome of the one Anthropic API call: a response text, or a raised
transport/API error. -/
inductive ApiOutcome
  | response (content : String)
  | apiFailure
deriving DecidableEq, Repr

/-- Every batch item paired with no classification: the substitute value
built in the `except` handler. -/
def unclassified (batch : List (Event × String)) : List ClassifiedTriple :=
  batch.map (fun x => (x.1, x.2, none))

/-- Embeds `_async_batch_classify_events` as a whole: empty batches
return `[]` before the `try`; otherwise the body runs and its result is
returned, while any raised error is caught by the blanket
`except Exception` which returns the batch unclassified. -/
def async_batch_classify_events (parse : String → Option (List Verdict))
    (api : ApiOutcome) (batch : List (Event × String)) : List ClassifiedTriple :=
  if batch.isEmpty then []
  else
    match api with
    | ApiOutcome.apiFailure => unclassified batch
    | ApiOutcome.response content =>
      match classifyBody parse content batch with
      | Except.ok r => r
      | Except.error _ => unclassified batch

/-! ## Concurrency controller (`_process_batches_concurrently`)

A classification call is summarised by a `CallBehavior`: either an
exception escapes `_async_batch_classify_events` (the only way
`process_with_semaphore` produces `None`: e.g. a cancellation or a
failure before its `try` block) or the call completes with an
`ApiOutcome` feeding the embedded body.  The controller is deterministic
given the behavior of each call; `asyncio.gather` returns results in
task order, which the embedding keeps.  Backoff sleeps and call starts
are recorded as a trace of `BatchAction`s. -/

/-- Behavior of one classification call as seen by the controller. -/
inductive CallBehavior
  | raises
  | returns (api : ApiOutcome)
deriving DecidableEq, Repr

/-- Observable action of the controller: starting a classification call
on a batch, or sleeping a fixed number of seconds. -/
inductive BatchAction
  | call (batch : List (Event × String))
  | sleep (seconds : Nat)
deriving DecidableEq, Repr

/-- Embeds `process_with_semaphore`: the call either completes (result
list) or its exception is caught and `None` is returned. -/
def oneCall (parse : String → Option (List Verdict))
    (behave : List (Event × String) → CallBehavior)
    (batch : List (Event × String)) : Option (List ClassifiedTriple) :=
  match behave batch with
  | CallBehavior.raises => none
  | CallBehavior.returns api => some (async_batch_classify_events parse api batch)

/-- Embeds the split-retry block run when a gathered result is `None`
and the batch holds more than one item: sleep 2s, retry the first half
(`batch[:mid]`, `mid = len // 2`); if that call completes, append its
(truthy) result, sleep 1s and retry the second half likewise.  An
exception from either retry call is caught by the surrounding `except`,
which appends the whole original batch unclassified.  Returns the lists
appended to `results` plus the action trace. -/
def retryFailedBatch (parse : String → Option (List Verdict))
    (behave : List (Event × String) → CallBehavior)
    (batch : List (Event × String)) :
    List (List ClassifiedTriple) × List BatchAction :=
  let mid := batch.length / 2
  let firstHalf := batch.take mid
  let secondHalf := batch.drop mid
  match oneCall parse behave firstHalf with
  | none =>
    ([unclassified batch], [BatchAction.sleep 2, BatchAction.call firstHalf])
  | some firstResult =>
    let acc := if firstResult.isEmpty then [] else [firstResult]
    match oneCall parse behave secondHalf with
    | none =>
      (acc ++ [unclassified batch],
       [BatchAction.sleep 2, BatchAction.call firstHalf,
        BatchAction.sleep 1, BatchAction.call secondHalf])
    | some secondResult =>
      (acc ++ (if secondResult.isEmpty then [] else [secondResult]),
       [BatchAction.sleep 2, BatchAction.call firstHalf,
        BatchAction.sleep 1, BatchAction.call secondHalf])

/-- Handling of one gathered slot in the result loop of
`_process_batches_concurrently`: a completed call contributes its
result; a `None` slot triggers the split-retry for batches of more than
one item and is marked for manual review (appended unclassified)
otherwise. -/
def handleBatch (parse : String → Option (List Verdict))
    (behave : List (Event × String) → CallBehavior)
    (batch : List (Event × String)) :
    List (List ClassifiedTriple) × List BatchAction :=
  match oneCall parse behave batch with
  | some r => ([r], [BatchAction.call batch])
  | none =>
    if 1 < batch.length then
      let rt := retryFailedBatch parse behave batch
      (rt.1, BatchAction.call batch :: rt.2)
    else ([unclassified batch], [BatchAction.call batch])

/-- Embeds `_process_batches_concurrently`: results are gathered in task
order and the per-slot contributions are concatenated in that order. -/
def process_batches_concurrently (parse : String → Option (List Verdict))
    (behave : List (Event × String) → CallBehavior)
    (batches : List (List (Event × String))) : List (List ClassifiedTriple) :=
  (batches.map (fun b => (handleBatch parse behave b).1)).flatten

/-! ## Result-loop of `filter_events` and the composed pipeline -/

/-- Embeds the per-item step of the result loop in `filter_events`: an
unclassified item is kept with `needs_review` set; a classified item is
kept exactly when `keep_event` holds and the confidence reaches the
threshold, and is dropped (`batch_discarded`) otherwise. -/
def process_batch_item (threshold : Rat) (x : ClassifiedTriple) :
    Option FilteredEvent :=
  let fe := FilteredEvent.from_event x.1 x.2.1
  match x.2.2 with
  | none =>
    some { fe with needs_review := true,
                   review_reason := some "Failed to classify with Claude" }
  | some cls =>
    if cls.keep_event && decide (threshold ≤ cls.confidence_score) then
      some { fe with classification := some cls }
    else none

/-- Embeds the result loop over all gathered batch results: empty
results are skipped and each remaining triple goes through
`process_batch_item`; the survivors are accumulated in order into
`processed_events`. -/
def process_batch_results (threshold : Rat)
    (batchResults : List (List ClassifiedTriple)) : List FilteredEvent :=
  batchResults.flatMap (fun br => br.filterMap (process_batch_item threshold))

/-- Embeds the `filtered_events` list of the result returned by
`ClaudeEventFilter.filter_events`: collect the eligible events, batch
them, run the controller, keep/flag per item, deduplicate and sort. -/
def filter_events_result (parse : String → Option (List Verdict))
    (behave : List (Event × String) → CallBehavior)
    (threshold : Rat) (batch_size : Nat) (today : String)
    (calendars : List (String × List Event)) : List FilteredEvent :=
  let toProcess := collect_events today calendars
  let batches := make_batches toProcess batch_size
  let results := process_batches_concurrently parse behave batches
  sort_events (deduplicate_events (process_batch_results threshold results))

/-! ## Persistence (`save_filtered_events` and the interim-save block)

File-system effects are modelled as the ordered list of operations the
code attempts; `writeOk` stands for whether the `json.dump`-to-open-file
step succeeds. -/

instance exceptDecEq {ε α : Type} [DecidableEq ε] [DecidableEq α] :
    DecidableEq (Except ε α) := fun x y =>
  match x, y with
  | Except.error a, Except.error b =>
    if h : a = b then isTrue (h ▸ rfl)
    else isFalse (fun hc => by injection hc with h2; exact h h2)
  | Except.error _, Except.ok _ => isFalse (fun hc => Except.noConfusion hc)
  | Except.ok _, Except.error _ => isFalse (fun hc => Except.noConfusion hc)
  | Except.ok a, Except.ok b =>
    if h : a = b then isTrue (h ▸ rfl)
    else isFalse (fun hc => by injection hc with h2; exact h h2)

/-- Attempted filesystem operation. -/
inductive FsOp
  | makeDirs (dir : String)
  | write (path : String)
  | replace (src dst : String)
deriving DecidableEq, Repr

/-- Directory part of a path (`os.path.dirname` on the relative paths
used here): everything before the final slash, empty for a bare file
name. -/
def dirname (p : String) : String :=
  let parts := pySplit p "/"
  if parts.length ≤ 1 then "" else String.intercalate "/" parts.dropLast

/-- Embeds the path resolution of `save_filtered_events`: the explicit
argument when truthy, else the config's output file when truthy, else
the default.  (`os.path.abspath` is omitted: the claims under proof
do not depend on absolutisation.) -/
def resolveOutputPath (filePath cfgPath : Option String) : String :=
  match truthy filePath with
  | some p => p
  | none =>
    match truthy cfgPath with
    | some p => p
    | none => "output/filtered_calendar_events.json"

/-- Embeds `ClaudeEventFilter.save_filtered_events`: resolve the path,
create its directory when nonempty, then open the target path itself
for writing and dump the JSON; a failure of the dump is logged and
re-raised. -/
def save_filtered_events (filePath cfgPath : Option String) (writeOk : Bool) :
    List FsOp × Except String Unit :=
  let outputPath := resolveOutputPath filePath cfgPath
  let outputDir := dirname outputPath
  let dirOps := if outputDir = "" then [] else [FsOp.makeDirs outputDir]
  (dirOps ++ [FsOp.write outputPath],
   if writeOk then Except.ok () else Except.error "Error saving filtered events")

/-- Metadata fields written by the interim save (the wall-clock
`filtering_date` is omitted). -/
structure InterimMetadata where
  total_events_processed : Nat
  events_retained : Nat
  batches_processed : Nat
  total_batches : Nat
deriving DecidableEq, Repr

/-- Content atomically moved onto the target path by an interim save. -/
structure InterimSnapshot where
  filtered_events : List FilteredEvent
  metadata : InterimMetadata
deriving DecidableEq, Repr

/-- Interim output path: the config's output file when a config is
present (`if self.config and hasattr(...)`), else the default. -/
def interimPath (cfgPath : Option String) : String :=
  match cfgPath with
  | some p => p
  | none => "output/filtered_calendar_events.json"

/-- Directory creation performed by the interim save: only the
default-path branch runs `os.makedirs`. -/
def interimPre (cfgPath : Option String) : List FsOp :=
  match cfgPath with
  | some _ => []
  | none => [FsOp.makeDirs (dirname "output/filtered_calendar_events.json")]

/-- Embeds the interim-save block of `filter_events` (run after each
processed batch): on every fifth completed batch, resolve the interim
path (config when present, else the default plus a `makedirs`),
deduplicate and sort the events processed so far, write the snapshot to
`<path>.temp` and atomically `os.replace` it onto the path.  The whole
block sits in a `try` whose handler only logs, so a failed dump leaves
the target untouched and nothing propagates: the function returns the
attempted operations and the snapshot that reached the target, if any. -/
def interim_save (cfgPath : Option String) (processed_batch_count : Nat)
    (total_events total_batches : Nat) (processedSoFar : List FilteredEvent)
    (writeOk : Bool) : List FsOp × Option InterimSnapshot :=
  if processed_batch_count % 5 = 0 then
    let path := interimPath cfgPath
    let preOps := interimPre cfgPath
    let sortedEvents := sort_events (deduplicate_events processedSoFar)
    let snapshot : InterimSnapshot :=
      { filtered_events := sortedEvents
        metadata :=
          { total_events_processed := total_events
            events_retained := sortedEvents.length
            batches_processed := processed_batch_count
            total_batches := total_batches } }
    let tempPath := path ++ ".temp"
    if writeOk then
      (preOps ++ [FsOp.write tempPath, FsOp.replace tempPath path], some snapshot)
    else
      (preOps ++ [FsOp.write tempPath], none)
  else ([], none)

/-- Modelled from the spec's words (its aggregator section): the
"deduplicated-kept" view is the deduplicated result set restricted to
the export-worthy items, those with `classification.keep == true` and
`confidence >= threshold`.  The source maintains no such separate view;
this definition exists to compare the spec's description of the interim
snapshot against what the code serialises. -/
def specDeduplicatedKeptView (threshold : Rat) (events : List FilteredEvent) :
    List FilteredEvent :=
  sort_events ((deduplicate_events events).filter (fun e =>
    match e.classification with
    | some c => c.keep_event && decide (threshold ≤ c.confidence_score)
    | none => false))

/-- Events processed by the result loop of `filter_events` for a given
classifier behavior, before deduplication and sorting. -/
def pipeline_processed (parse : String → Option (List Verdict))
    (behave : List (Event × String) → CallBehavior)
    (threshold : Rat) (batch_size : Nat) (today : String)
    (calendars : List (String × List Event)) : List FilteredEvent :=
  process_batch_results threshold
    (process_batches_concurrently parse behave
      (make_batches (collect_events today calendars) batch_size))

/-! ## Order instances for the sort relation -/

instance : IsTotal FilteredEvent sortLE :=
  ⟨fun a b => by
    have conn : ∀ x y : List Char, charListLt x y = false →
        charListLt y x = false → x = y := by
      intro x
      induction x with
      | nil =>
        intro y hxy _
        cases y with
        | nil => rfl
        | cons b bs => simp [charListLt] at hxy
      | cons c cs ih =>
        intro y hxy hyx
        cases y with
        | nil => simp [charListLt] at hyx
        | cons b bs =>
          rw [charListLt] at hxy hyx
          by_cases hcb : c < b
          · simp [hcb] at hxy
          · by_cases hbc : b < c
            · simp [hbc] at hyx
            · have hce : c = b := le_antisymm (not_lt.mp hbc) (not_lt.mp hcb)
              simp only [hcb, hbc, if_false] at hxy hyx
              rw [hce, ih bs hxy hyx]
    unfold sortLE
    cases hab : pyStrLt (sortKey a).1 (sortKey b).1 with
    | true => exact Or.inl (Or.inl rfl)
    | false =>
      cases hba : pyStrLt (sortKey b).1 (sortKey a).1 with
      | true => exact Or.inr (Or.inl rfl)
      | false =>
        have hdata : (sortKey a).1.toList = (sortKey b).1.toList :=
          conn _ _ hab hba
        have heq : (sortKey a).1 = (sortKey b).1 := by
          cases hA : (sortKey a).1 with
          | mk da =>
            cases hB : (sortKey b).1 with
            | mk db =>
              rw [hA, hB] at hdata
              simpa using congrArg String.mk hdata
        rcases Nat.le_total (sortKey a).2 (sortKey b).2 with h2 | h2
        · exact Or.inl (Or.inr ⟨heq, h2⟩)
        · exact Or.inr (Or.inr ⟨heq.symm, h2⟩)⟩

instance : IsTrans FilteredEvent sortLE :=
  ⟨fun a b c hab hbc => by
    have tr : ∀ x y z : List Char, charListLt x y = true →
        charListLt y z = true → charListLt x z = true := by
      intro x
      induction x with
      | nil =>
        intro y z hxy hyz
        cases y with
        | nil => simp [charListLt] at hxy
        | cons b bs =>
          cases z with
          | nil => simp [charListLt] at hyz
          | cons d ds => rw [charListLt]
      | cons e es ih =>
        intro y z hxy hyz
        cases y with
        | nil => simp [charListLt] at hxy
        | cons b bs =>
          cases z with
          | nil => simp [charListLt] at hyz
          | cons d ds =>
            rw [charListLt] at hxy hyz ⊢
            by_cases heb : e < b
            · by_cases hbd : b < d
              · simp [lt_trans heb hbd]
              · by_cases hdb : d < b
                · simp [heb, hbd, hdb] at hyz
                · have hbd2 : b = d := le_antisymm (not_lt.mp hdb) (not_lt.mp hbd)
                  simp [hbd2 ▸ heb]
            · by_cases hbe : b < e
              · simp [heb, hbe] at hxy
              · have hbe2 : e = b := le_antisymm (not_lt.mp hbe) (not_lt.mp heb)
                simp only [heb, hbe, if_false] at hxy
                by_cases hbd : b < d
                · simp [hbe2 ▸ hbd]
                · by_cases hdb : d < b
                  · simp [hbd, hdb] at hyz
                  · have hbd2 : b = d := le_antisymm (not_lt.mp hdb) (not_lt.mp hbd)
                    simp only [hbd, hdb, if_false] at hyz
                    have hed : ¬ e < d := hbd2 ▸ hbe2 ▸ lt_irrefl e
                    have hde : ¬ d < e := hbd2 ▸ hbe2 ▸ lt_irrefl e
                    simp only [hed, hde, if_false]
                    exact ih bs ds hxy hyz
    unfold sortLE at hab hbc ⊢
    rcases hab with h1 | h1 <;> rcases hbc with h2 | h2
    · exact Or.inl (tr _ _ _ h1 h2)
    · exact Or.inl (h2.1 ▸ h1)
    · exact Or.inl (h1.1 ▸ h2)
    · exact Or.inr ⟨h1.1.trans h2.1, le_trans h1.2 h2.2⟩⟩

/-! ## Invariant of the deduplication fold -/

/-- Invariant tying the id-keyed accumulator of `_deduplicate_events` to
the events already folded in: keys are distinct, each stored event
carries its key as id, is one of the processed events, and has maximal
confidence among processed events with its id; every processed event's
id is a key. -/
structure DedupInv (processed : List FilteredEvent)
    (acc : List (String × FilteredEvent)) : Prop where
  nodupKeys : (acc.map Prod.fst).Nodup
  keyed : ∀ p ∈ acc, p.2.id = p.1
  sound : ∀ p ∈ acc, p.2 ∈ processed
  maxconf : ∀ p ∈ acc, ∀ e ∈ processed, e.id = p.1 →
    confidenceOf e ≤ confidenceOf p.2
  cover : ∀ e ∈ processed, e.id ∈ acc.map Prod.fst

/-! ## Concrete fixtures used by witnesses and counterexamples -/

/-- Future-dated all-day event. -/
def evA : Event :=
  { id := "ev1"
    summary := "a"
    description := none
    status := "confirmed"
    start := some { date := some "2025-12-01", dateTime := none }
    «end» := none
    all_day := true }

/-- Past event carrying only a timed `dateTime`, no all-day `date`. -/
def evPastTimed : Event :=
  { id := "past1"
    summary := "p"
    description := none
    status := "confirmed"
    start := some { date := none, dateTime := some "2020-01-01T09:00:00Z" }
    «end» := none
    all_day := false }

/-- Rational 0.4 in normal form (kernel-reducible, unlike the scientific
literal). -/
def rat04 : Rat := ⟨2, 5, by decide, by decide⟩

/-- Rational 0.5 in normal form. -/
def rat05 : Rat := ⟨1, 2, by decide, by decide⟩

/-- Rational 0.7 in normal form (the default confidence threshold). -/
def rat07 : Rat := ⟨7, 10, by decide, by decide⟩

/-- Rational 0.9 in normal form. -/
def rat09 : Rat := ⟨9, 10, by decide, by decide⟩

/-- Classification fixture with the given keep flag, confidence and
reasoning. -/
def mkClassification (k : Bool) (c : Rat) (r : String) : EventClassification :=
  { keep_event := k
    goal_alignment := []
    focus_area_alignment := []
    eisenhower_category := "Urgent & Important"
    confidence_score := c
    reasoning := r }

/-- Base filtered-event fixture. -/
def feBase : FilteredEvent :=
  { id := "e"
    summary := "s"
    description := none
    start_date := some "2025-05-01"
    end_date := none
    is_all_day := false
    status := "confirmed"
    calendar_name := "c"
    classification := some (mkClassification true rat04 "r") }

/-- Duplicate of `feBase` with confidence 0.9. -/
def feHigh : FilteredEvent :=
  { feBase with classification := some (mkClassification false rat09 "r2") }

/-- Tie fixture: confidence 0.5, kept. -/
def tie1 : FilteredEvent :=
  { feBase with classification := some (mkClassification true rat05 "x") }

/-- Tie fixture: same id and confidence as `tie1`, different fields. -/
def tie2 : FilteredEvent :=
  { feBase with classification := some (mkClassification false rat05 "y") }

/-- Sort fixture dated 2025-05-01. -/
def sA : FilteredEvent :=
  { feBase with id := "sA", start_date := some "2025-05-01", classification := none }

/-- Sort fixture with no date. -/
def sB : FilteredEvent :=
  { feBase with id := "sB", start_date := none, classification := none }

/-- Sort fixture dated 2025-04-20. -/
def sC : FilteredEvent :=
  { feBase with id := "sC", start_date := some "2025-04-20", classification := none }

/-- Needs-review fixture: no classification. -/
def reviewFe : FilteredEvent :=
  { feBase with classification := none, needs_review := true }

/-- Verdict for `evA` that keeps nothing: `keep_event` is `false` with
high confidence. -/
def verdictKeepFalse : Verdict :=
  { event_id := some "ev1"
    keep_event := some false
    goal_alignment := some []
    focus_area_alignment := some []
    eisenhower_category := some "Urgent & Important"
    confidence_score := some rat09
    reasoning := some "r" }

/-- Id-matched verdict with every other field missing. -/
def emptyVerdict : Verdict :=
  { event_id := some "ev1"
    keep_event := none
    goal_alignment := none
    focus_area_alignment := none
    eisenhower_category := none
    confidence_score := none
    reasoning := none }

/-- Parse oracle returning the keep-false verdict for any text. -/
def parseKeepFalse : String → Option (List Verdict) := fun _ => some [verdictKeepFalse]

/-- Parse oracle that always fails (unparseable JSON). -/
def parseNone : String → Option (List Verdict) := fun _ => none

/-- Call behavior: every call completes with a well-braced response. -/
def behaveOk : List (Event × String) → CallBehavior :=
  fun _ => CallBehavior.returns (ApiOutcome.response "\x7b\"a\":1\x7d")

/-- Call behavior: every call completes with a response holding no JSON
structure at all. -/
def behaveNoJson : List (Event × String) → CallBehavior :=
  fun _ => CallBehavior.returns (ApiOutcome.response "no json here")

/-- Call behavior: every call raises. -/
def behaveRaise : List (Event × String) → CallBehavior := fun _ => CallBehavior.raises

/-- Batch of four distinct entries. -/
def batch4 : List (Event × String) :=
  [(evA, "c1"), (evPastTimed, "c2"), (evA, "c3"), (evA, "c4")]

/-- Fixed default classification produced for an id-matched verdict with
all fields missing. -/
def defaultClassificationValue : EventClassification :=
  { keep_event := false
    goal_alignment := []
    focus_area_alignment := []
    eisenhower_category := "Not Urgent & Not Important"
    confidence_score := 0
    reasoning := "No reasoning provided" }

/-! # Theorems

Helper lemmas come first, the per-claim theorems follow. -/

/-! ## Batching lemmas -/

theorem makeBatchesFuel_congr {α : Type} :
    ∀ (f1 f2 : Nat) (xs : List α) (bs : Nat), xs.length ≤ f1 →
    xs.length ≤ f2 → makeBatchesFuel f1 xs bs = makeBatchesFuel f2 xs bs := by
  intro f1
  induction f1 with
  | zero =>
    intro f2 xs bs h1 _
    have hx : xs = [] := List.length_eq_zero.mp (Nat.le_zero.mp h1)
    subst hx
    cases f2 <;> simp [makeBatchesFuel]
  | succ f ih =>
    intro f2 xs bs h1 h2
    cases xs with
    | nil => cases f2 <;> simp [makeBatchesFuel]
    | cons x tl =>
      cases f2 with
      | zero => simp at h2
      | succ g =>
        rw [makeBatchesFuel, makeBatchesFuel]
        by_cases hbs : bs = 0
        · simp [hbs]
        · rw [if_neg hbs, if_neg hbs]
          rw [ih g ((x :: tl).drop bs) bs ?_ ?_]
          · simp only [List.length_cons] at h1
            simp only [List.length_drop, List.length_cons]
            omega
          · simp only [List.length_cons] at h2
            simp only [List.length_drop, List.length_cons]
            omega

theorem make_batches_nil {α : Type} (bs : Nat) :
    make_batches ([] : List α) bs = [] := by
  simp [make_batches, makeBatchesFuel]

theorem make_batches_cons {α : Type} (x : α) (tl : List α) (bs : Nat) (h : bs ≠ 0) :
    make_batches (x :: tl) bs =
      (x :: tl).take bs :: make_batches ((x :: tl).drop bs) bs := by
  rw [make_batches, make_batches, makeBatchesFuel, if_neg h]
  rw [makeBatchesFuel_congr (x :: tl).length (((x :: tl).drop bs).length + 1)
    ((x :: tl).drop bs) bs]
  · simp only [List.length_drop, List.length_cons]
    omega
  · omega

theorem make_batches_flatten {α : Type} (bs : Nat) (h : 0 < bs) :
    ∀ (xs : List α), (make_batches xs bs).flatten = xs := by
  suffices haux : ∀ (fuel : Nat) (xs : List α), xs.length ≤ fuel →
      (makeBatchesFuel fuel xs bs).flatten = xs by
    intro xs
    exact haux (xs.length + 1) xs (by omega)
  intro fuel
  induction fuel with
  | zero =>
    intro xs h1
    have hx : xs = [] := List.length_eq_zero.mp (Nat.le_zero.mp h1)
    subst hx
    simp [makeBatchesFuel]
  | succ f ih =>
    intro xs h1
    cases xs with
    | nil => simp [makeBatchesFuel]
    | cons x tl =>
      rw [makeBatchesFuel, if_neg (Nat.pos_iff_ne_zero.mp h), List.flatten_cons]
      rw [ih ((x :: tl).drop bs) ?_, List.take_append_drop]
      simp only [List.length_cons] at h1
      simp only [List.length_drop, List.length_cons]
      omega

theorem make_batches_mem_length_le {α : Type} (bs : Nat) :
    ∀ (xs : List α), ∀ b ∈ make_batches xs bs, b.length ≤ bs := by
  suffices haux : ∀ (fuel : Nat) (xs : List α), xs.length ≤ fuel →
      ∀ b ∈ makeBatchesFuel fuel xs bs, b.length ≤ bs by
    intro xs
    exact haux (xs.length + 1) xs (by omega)
  intro fuel
  induction fuel with
  | zero =>
    intro xs h1
    have hx : xs = [] := List.length_eq_zero.mp (Nat.le_zero.mp h1)
    subst hx
    simp [makeBatchesFuel]
  | succ f ih =>
    intro xs h1
    cases xs with
    | nil => simp [makeBatchesFuel]
    | cons x tl =>
      rw [makeBatchesFuel]
      by_cases hbs : bs = 0
      · simp [hbs]
      · rw [if_neg hbs]
        intro b hb
        rcases List.mem_cons.mp hb with rfl | hb
        · simp only [List.length_take]
          exact Nat.min_le_left bs (x :: tl).length
        · refine ih ((x :: tl).drop bs) ?_ b hb
          simp only [List.length_cons] at h1
          simp only [List.length_drop, List.length_cons]
          omega

theorem make_batches_ne_nil {α : Type} (bs : Nat) (xs : List α)
    (h : bs ≠ 0) (hxs : xs ≠ []) : make_batches xs bs ≠ [] := by
  cases xs with
  | nil => exact absurd rfl hxs
  | cons x tl =>
    rw [make_batches_cons _ _ _ h]
    simp

theorem make_batches_dropLast_length {α : Type} (bs : Nat) (h : 0 < bs) :
    ∀ (xs : List α), ∀ b ∈ (make_batches xs bs).dropLast, b.length = bs := by
  suffices haux : ∀ (fuel : Nat) (xs : List α), xs.length ≤ fuel →
      ∀ b ∈ (makeBatchesFuel fuel xs bs).dropLast, b.length = bs by
    intro xs
    exact haux (xs.length + 1) xs (by omega)
  intro fuel
  induction fuel with
  | zero =>
    intro xs h1
    have hx : xs = [] := List.length_eq_zero.mp (Nat.le_zero.mp h1)
    subst hx
    simp [makeBatchesFuel]
  | succ f ih =>
    intro xs h1
    cases xs with
    | nil => simp [makeBatchesFuel]
    | cons x tl =>
      rw [makeBatchesFuel, if_neg (Nat.pos_iff_ne_zero.mp h)]
      intro b hb
      have hdroplen : ((x :: tl).drop bs).length ≤ f := by
        simp only [List.length_cons] at h1
        simp only [List.length_drop, List.length_cons]
        omega
      by_cases hrest : makeBatchesFuel f ((x :: tl).drop bs) bs = []
      · rw [hrest] at hb
        simp at hb
      · have hne : (x :: tl).drop bs ≠ [] := by
          intro hcon
          rw [hcon] at hrest
          cases f <;> simp [makeBatchesFuel] at hrest
        rw [List.dropLast_cons_of_ne_nil hrest] at hb
        rcases List.mem_cons.mp hb with rfl | hb
        · have hlt : bs < (x :: tl).length := by
            have := List.length_pos.mpr hne
            simp only [List.length_drop] at this
            omega
          simp only [List.length_cons] at hlt
          simp only [List.length_take, List.length_cons]
          omega
        · exact ih ((x :: tl).drop bs) hdroplen b hb

theorem make_batches_mem_mem {α : Type} (bs : Nat) (h : 0 < bs) (xs : List α)
    (b : List α) (hb : b ∈ make_batches xs bs) (y : α) (hy : y ∈ b) : y ∈ xs := by
  have : y ∈ (make_batches xs bs).flatten := List.mem_flatten.mpr ⟨b, hb, hy⟩
  rwa [make_batches_flatten bs h xs] at this

/-- Claim C7: for every input sequence and positive batch size, the
batching loop of `filter_events` produces batches whose concatenation is
the input sequence itself (hence no item is lost, duplicated or
reordered), each batch has length at most `batch_size`, and every batch
except possibly the last has length exactly `batch_size`. -/
theorem batching_reconstructs_input {α : Type} (xs : List α) (bs : Nat)
    (h : 0 < bs) :
    (make_batches xs bs).flatten = xs ∧
    (∀ b ∈ make_batches xs bs, b.length ≤ bs) ∧
    (∀ b ∈ (make_batches xs bs).dropLast, b.length = bs) :=
  ⟨make_batches_flatten bs h xs, make_batches_mem_length_le bs xs,
   make_batches_dropLast_length bs h xs⟩

/-- Claim C7, witness: the theorem applied to a concrete seven-element
sequence with batch size 3. -/
theorem batching_reconstructs_input_witness :
    (0 < 3 ∧
      ((make_batches [10, 20, 30, 40, 50, 60, 70] 3).flatten =
          [10, 20, 30, 40, 50, 60, 70] ∧
        (∀ b ∈ make_batches [10, 20, 30, 40, 50, 60, 70] 3, b.length ≤ 3) ∧
        (∀ b ∈ (make_batches [10, 20, 30, 40, 50, 60, 70] 3).dropLast,
          b.length = 3))) ∧
    make_batches [10, 20, 30, 40, 50, 60, 70] 3 =
      [[10, 20, 30], [40, 50, 60], [70]] :=
  ⟨⟨by decide, batching_reconstructs_input [10, 20, 30, 40, 50, 60, 70] 3 (by decide)⟩,
   by simp [make_batches_cons, make_batches_nil]⟩

/-! ## Deduplication lemmas -/

theorem alookup_eq_none_key {id : String} :
    ∀ {l : List (String × FilteredEvent)}, alookup id l = none →
    ∀ p ∈ l, p.1 ≠ id := by
  intro l
  induction l with
  | nil => intro _ p hp; simp at hp
  | cons q tl ih =>
    intro h p hp
    rw [alookup] at h
    split at h
    · exact absurd h (by simp)
    · next hq =>
      rcases List.mem_cons.mp hp with rfl | hp
      · exact hq
      · exact ih h p hp

theorem alookup_mem {id : String} :
    ∀ {l : List (String × FilteredEvent)} {v : FilteredEvent},
    alookup id l = some v → (id, v) ∈ l := by
  intro l
  induction l with
  | nil => intro v h; simp [alookup] at h
  | cons q tl ih =>
    intro v h
    rw [alookup] at h
    split at h
    · next hq =>
      have hv : v = q.2 := by
        injection h with h2
        exact h2.symm
      rw [hv, ← hq]
      exact List.mem_cons_self _ _
    · exact List.mem_cons_of_mem _ (ih h)

theorem alookup_key_mem {id : String} {l : List (String × FilteredEvent)}
    {v : FilteredEvent} (h : alookup id l = some v) : id ∈ l.map Prod.fst :=
  List.mem_map.mpr ⟨(id, v), alookup_mem h, rfl⟩

theorem key_mem_alookup {id : String} :
    ∀ {l : List (String × FilteredEvent)}, id ∈ l.map Prod.fst →
    ∃ v, alookup id l = some v := by
  intro l
  induction l with
  | nil => intro h; simp at h
  | cons q tl ih =>
    intro h
    rw [alookup]
    by_cases hq : q.1 = id
    · exact ⟨q.2, by simp [hq]⟩
    · simp only [List.map_cons, List.mem_cons] at h
      rcases h with h | h
      · exact absurd h.symm hq
      · simpa [hq] using ih h

theorem replace_map_fst (l : List (String × FilteredEvent)) (id : String)
    (e : FilteredEvent) :
    (l.map (fun p => if p.1 = id then (id, e) else p)).map Prod.fst =
      l.map Prod.fst := by
  induction l with
  | nil => rfl
  | cons q tl ih =>
    simp only [List.map_cons, ih]
    by_cases hq : q.1 = id
    · simp [hq]
    · simp [hq]

theorem dedupInv_step {processed : List FilteredEvent}
    {acc : List (String × FilteredEvent)} (inv : DedupInv processed acc)
    (e : FilteredEvent) : DedupInv (processed ++ [e]) (dedup_step acc e) := by
  unfold dedup_step
  cases hl : alookup e.id acc with
  | none =>
    show DedupInv (processed ++ [e]) (acc ++ [(e.id, e)])
    refine ⟨?_, ?_, ?_, ?_, ?_⟩
    · rw [List.map_append]
      refine List.Nodup.append inv.nodupKeys (by simp) ?_
      intro a ha hb
      simp only [List.map_cons, List.map_nil, List.mem_singleton] at hb
      subst hb
      rcases List.mem_map.mp ha with ⟨p, hpA, hfst⟩
      exact alookup_eq_none_key hl p hpA hfst
    · intro p hp
      rcases List.mem_append.mp hp with hpA | hpN
      · exact inv.keyed p hpA
      · simp only [List.mem_singleton] at hpN
        subst hpN
        rfl
    · intro p hp
      rcases List.mem_append.mp hp with hpA | hpN
      · exact List.mem_append_left _ (inv.sound p hpA)
      · simp only [List.mem_singleton] at hpN
        subst hpN
        exact List.mem_append_right _ (by simp)
    · intro p hp e' he' hid
      rcases List.mem_append.mp hp with hpA | hpN
      · rcases List.mem_append.mp he' with heP | heE
        · exact inv.maxconf p hpA e' heP hid
        · simp only [List.mem_singleton] at heE
          subst heE
          exact absurd hid.symm (alookup_eq_none_key hl p hpA)
      · simp only [List.mem_singleton] at hpN
        subst hpN
        rcases List.mem_append.mp he' with heP | heE
        · have hkey := inv.cover e' heP
          rw [hid] at hkey
          rcases key_mem_alookup hkey with ⟨v, hv⟩
          rw [hv] at hl
          cases hl
        · simp only [List.mem_singleton] at heE
          subst heE
          exact le_refl _
    · intro e' he'
      rw [List.map_append]
      rcases List.mem_append.mp he' with heP | heE
      · exact List.mem_append_left _ (inv.cover e' heP)
      · simp only [List.mem_singleton] at heE
        subst heE
        exact List.mem_append_right _ (by simp)
  | some existing =>
    have hmemEx : (e.id, existing) ∈ acc := alookup_mem hl
    show DedupInv (processed ++ [e])
      (if confidenceOf existing < confidenceOf e then
        acc.map (fun p => if p.1 = e.id then (e.id, e) else p)
      else acc)
    by_cases hc : confidenceOf existing < confidenceOf e
    · rw [if_pos hc]
      refine ⟨?_, ?_, ?_, ?_, ?_⟩
      · rw [replace_map_fst]
        exact inv.nodupKeys
      · intro q hq
        rcases List.mem_map.mp hq with ⟨p, hpA, hf⟩
        by_cases hk : p.1 = e.id
        · simp only [hk, if_true] at hf
          subst hf
          rfl
        · simp only [hk, if_false] at hf
          subst hf
          exact inv.keyed p hpA
      · intro q hq
        rcases List.mem_map.mp hq with ⟨p, hpA, hf⟩
        by_cases hk : p.1 = e.id
        · simp only [hk, if_true] at hf
          subst hf
          exact List.mem_append_right _ (by simp)
        · simp only [hk, if_false] at hf
          subst hf
          exact List.mem_append_left _ (inv.sound p hpA)
      · intro q hq e' he' hid
        rcases List.mem_map.mp hq with ⟨p, hpA, hf⟩
        by_cases hk : p.1 = e.id
        · simp only [hk, if_true] at hf
          subst hf
          rcases List.mem_append.mp he' with heP | heE
          · have h1 := inv.maxconf (e.id, existing) hmemEx e' heP (by simpa using hid)
            exact le_trans h1 (le_of_lt hc)
          · simp only [List.mem_singleton] at heE
            subst heE
            exact le_refl _
        · simp only [hk, if_false] at hf
          subst hf
          rcases List.mem_append.mp he' with heP | heE
          · exact inv.maxconf p hpA e' heP hid
          · simp only [List.mem_singleton] at heE
            subst heE
            exact absurd hid.symm hk
      · intro e' he'
        rw [replace_map_fst]
        rcases List.mem_append.mp he' with heP | heE
        · exact inv.cover e' heP
        · simp only [List.mem_singleton] at heE
          subst heE
          exact alookup_key_mem hl
    · rw [if_neg hc]
      refine ⟨inv.nodupKeys, inv.keyed, ?_, ?_, ?_⟩
      · intro p hp
        exact List.mem_append_left _ (inv.sound p hp)
      · intro p hp e' he' hid
        rcases List.mem_append.mp he' with heP | heE
        · exact inv.maxconf p hp e' heP hid
        · simp only [List.mem_singleton] at heE
          rw [heE] at hid ⊢
          have hpe : p = (e.id, existing) :=
            List.inj_on_of_nodup_map inv.nodupKeys hp hmemEx
              (by simpa using hid.symm)
          rw [hpe]
          exact not_lt.mp hc
      · intro e' he'
        rcases List.mem_append.mp he' with heP | heE
        · exact inv.cover e' heP
        · simp only [List.mem_singleton] at heE
          subst heE
          exact alookup_key_mem hl

theorem dedupInv_foldl :
    ∀ (rest processed : List FilteredEvent) (acc : List (String × FilteredEvent)),
    DedupInv processed acc →
    DedupInv (processed ++ rest) (rest.foldl dedup_step acc)
  | [], processed, acc, inv => by simpa using inv
  | e :: rest, processed, acc, inv => by
    have h2 := dedupInv_foldl rest (processed ++ [e]) (dedup_step acc e)
      (dedupInv_step inv e)
    simpa [List.foldl_cons, List.append_assoc] using h2

theorem deduplicate_events_inv (events : List FilteredEvent) :
    DedupInv events (events.foldl dedup_step []) := by
  have h0 : DedupInv [] [] := ⟨by simp, by simp, by simp, by simp, by simp⟩
  simpa using dedupInv_foldl events [] [] h0

theorem deduplicate_events_sound (events : List FilteredEvent) :
    ∀ d ∈ deduplicate_events events, d ∈ events := by
  intro d hd
  simp only [deduplicate_events] at hd
  rcases List.mem_map.mp hd with ⟨p, hp, rfl⟩
  exact (deduplicate_events_inv events).sound p hp

theorem deduplicate_events_max (events : List FilteredEvent) :
    ∀ d ∈ deduplicate_events events, ∀ e ∈ events, e.id = d.id →
    confidenceOf e ≤ confidenceOf d := by
  intro d hd e he hid
  simp only [deduplicate_events] at hd
  rcases List.mem_map.mp hd with ⟨p, hp, rfl⟩
  have inv := deduplicate_events_inv events
  exact inv.maxconf p hp e he (by rw [hid, inv.keyed p hp])

theorem deduplicate_events_ids_nodup (events : List FilteredEvent) :
    ((deduplicate_events events).map FilteredEvent.id).Nodup := by
  have inv := deduplicate_events_inv events
  simp only [deduplicate_events, List.map_map]
  have heq : (events.foldl dedup_step []).map (FilteredEvent.id ∘ Prod.snd) =
      (events.foldl dedup_step []).map Prod.fst :=
    List.map_congr_left (fun p hp => inv.keyed p hp)
  rw [heq]
  exact inv.nodupKeys

theorem deduplicate_events_cover (events : List FilteredEvent) :
    ∀ e ∈ events, ∃ d ∈ deduplicate_events events, d.id = e.id := by
  intro e he
  have inv := deduplicate_events_inv events
  rcases List.mem_map.mp (inv.cover e he) with ⟨p, hp, hfst⟩
  refine ⟨p.2, ?_, ?_⟩
  · simp only [deduplicate_events]
    exact List.mem_map_of_mem _ hp
  · rw [inv.keyed p hp, hfst]

/-- Claim C4 (amended): `_deduplicate_events` keeps, for each id, one of
the input entries, and that entry's confidence (a missing classification
counting as 0) is maximal among all input entries with the same id; the
output holds at most one entry per id, and every input id is
represented.  When duplicate entries tie in confidence the first-arrived
entry is kept, so for tied duplicates the surviving entry does depend on
arrival order; for strictly distinct confidences such as 0.4 versus 0.9
both input orders yield the single 0.9 entry (see the witness). -/
theorem dedup_keeps_max_confidence (events : List FilteredEvent) :
    (∀ d ∈ deduplicate_events events, d ∈ events) ∧
    (∀ d ∈ deduplicate_events events, ∀ e ∈ events, e.id = d.id →
      confidenceOf e ≤ confidenceOf d) ∧
    ((deduplicate_events events).map FilteredEvent.id).Nodup ∧
    (∀ e ∈ events, ∃ d ∈ deduplicate_events events, d.id = e.id) :=
  ⟨deduplicate_events_sound events, deduplicate_events_max events,
   deduplicate_events_ids_nodup events, deduplicate_events_cover events⟩

/-- Claim C4, witness: the 0.4/0.9 duplicate pair of the claim, in both
input orders, each yielding exactly the 0.9 entry; the general theorem
is applied to the same concrete list. -/
theorem dedup_keeps_max_confidence_witness :
    deduplicate_events [feBase, feHigh] = [feHigh] ∧
    deduplicate_events [feHigh, feBase] = [feHigh] ∧
    confidenceOf feBase = rat04 ∧
    confidenceOf feHigh = rat09 ∧
    (∀ d ∈ deduplicate_events [feBase, feHigh], ∀ e ∈ [feBase, feHigh],
      e.id = d.id → confidenceOf e ≤ confidenceOf d) :=
  ⟨by decide, by decide, by decide, by decide,
   (dedup_keeps_max_confidence [feBase, feHigh]).2.1⟩

/-- Claim C4, counterexample: two entries with the same id and the same
confidence 0.5 but different classifications; `_deduplicate_events`
keeps whichever arrived first, so the two arrival orders give different
outputs, refuting order-independence as stated. -/
theorem dedup_depends_on_arrival_order :
    deduplicate_events [tie1, tie2] ≠ deduplicate_events [tie2, tie1] := by
  decide

/-! ## Sorting: Claim C6 -/

theorem sort_events_perm (events : List FilteredEvent) :
    List.Perm (sort_events events) events :=
  List.perm_insertionSort sortLE events

theorem sort_events_sorted (events : List FilteredEvent) :
    (sort_events events).Sorted sortLE :=
  List.sorted_insertionSort sortLE events

/-- Claim C6: `_sort_events` returns a permutation of its input that is
sorted by the key (start date ascending with a missing date replaced by
the far-future string, then the Eisenhower rank); the rank table maps
the four categories to 0,1,2,3 with every other string (and a missing
classification, whose category defaults to the fourth label) ranked 3;
on the claim's concrete dates with equal priority categories the output
order is 2025-04-20, 2025-05-01, then the date-less item. -/
theorem sort_events_spec :
    (∀ events : List FilteredEvent,
      List.Perm (sort_events events) events ∧ (sort_events events).Sorted sortLE) ∧
    (priority_order "Urgent & Important" = 0 ∧
      priority_order "Important & Not Urgent" = 1 ∧
      priority_order "Urgent & Not Important" = 2 ∧
      priority_order "Not Urgent & Not Important" = 3) ∧
    (∀ s : String, s ≠ "Urgent & Important" → s ≠ "Important & Not Urgent" →
      s ≠ "Urgent & Not Important" → priority_order s = 3) ∧
    (∀ e : FilteredEvent, e.start_date = none → (sortKey e).1 = "9999-12-31") ∧
    (∀ e : FilteredEvent, e.classification = none → (sortKey e).2 = 3) ∧
    sort_events [sA, sB, sC] = [sC, sA, sB] := by
  refine ⟨fun events => ⟨sort_events_perm events, sort_events_sorted events⟩,
    by decide, ?_, ?_, ?_, by decide⟩
  · intro s h1 h2 h3
    simp only [priority_order, h1, h2, h3, if_false]
    split <;> rfl
  · intro e h
    simp [sortKey, h]
  · intro e h
    simp [sortKey, h, priority_order]

/-- Claim C6, witness: the theorem applied to the claim's concrete
example list, an unrecognised category string, and the date-less
fixture. -/
theorem sort_events_spec_witness :
    sort_events [sA, sB, sC] = [sC, sA, sB] ∧
    priority_order "nonsense" = 3 ∧
    (sortKey sB).1 = "9999-12-31" ∧
    (sortKey sB).2 = 3 :=
  ⟨sort_events_spec.2.2.2.2.2,
   sort_events_spec.2.2.1 "nonsense" (by decide) (by decide) (by decide),
   sort_events_spec.2.2.2.1 sB (by decide),
   sort_events_spec.2.2.2.2.1 sB (by decide)⟩

/-! ## Collection: Claim C9 -/

theorem collect_events_mem_iff (today : String)
    (calendars : List (String × List Event)) (e : Event) (cal : String) :
    (e, cal) ∈ collect_events today calendars ↔
      ∃ evs, (cal, evs) ∈ calendars ∧ e ∈ evs ∧
        isPastSkip today e = false ∧ (e.status == "cancelled") = false := by
  constructor
  · intro h
    simp only [collect_events, List.mem_flatMap] at h
    rcases h with ⟨c, hc, hmem⟩
    rcases List.mem_map.mp hmem with ⟨e', he', heq⟩
    have he2 : e' = e := congrArg Prod.fst heq
    have hc2 : c.1 = cal := congrArg Prod.snd heq
    subst he2
    rcases List.mem_filter.mp he' with ⟨hin, hcond⟩
    simp only [Bool.and_eq_true, Bool.not_eq_true'] at hcond
    exact ⟨c.2, by rw [← hc2]; exact hc, hin, hcond.1, hcond.2⟩
  · intro ⟨evs, hc, hin, hskip, hcanc⟩
    simp only [collect_events, List.mem_flatMap]
    refine ⟨(cal, evs), hc, ?_⟩
    refine List.mem_map.mpr ⟨e, ?_, rfl⟩
    refine List.mem_filter.mpr ⟨hin, ?_⟩
    simp [hskip, hcanc]

/-- Claim C9 (amended): the collection loop of `filter_events` excludes
an event only when its start carries a truthy all-day `date` string that
compares before today (or when it is cancelled); every collected event
therefore has no past all-day date, and the classifier batches are drawn
from collected events only.  Events whose start has only a timed
`dateTime` are collected regardless of their date, so a past timed event
does reach the classifier (see the counterexample). -/
theorem collect_excludes_past_allday (today : String)
    (calendars : List (String × List Event)) (bs : Nat) (hbs : 0 < bs) :
    (∀ x ∈ collect_events today calendars,
      (∀ sdt d, x.1.start = some sdt → truthy sdt.date = some d →
        pyStrLt d today = false) ∧ x.1.status ≠ "cancelled") ∧
    (∀ b ∈ make_batches (collect_events today calendars) bs,
      ∀ y ∈ b, y ∈ collect_events today calendars) := by
  constructor
  · intro x hx
    rcases (collect_events_mem_iff today calendars x.1 x.2).mp hx with
      ⟨evs, _, _, hskip, hcanc⟩
    constructor
    · intro sdt d hstart hdate
      unfold isPastSkip at hskip
      rw [hstart] at hskip
      simp only [hdate] at hskip
      exact hskip
    · intro hcon
      rw [beq_eq_false_iff_ne] at hcanc
      exact hcanc hcon
  · intro b hb y hy
    exact make_batches_mem_mem bs hbs (collect_events today calendars) b hb y hy

/-- Claim C9, witness: the amended theorem applied to a concrete input
holding a future all-day event, plus a direct check that a past-dated
all-day event is excluded. -/
theorem collect_excludes_past_allday_witness :
    ((∀ x ∈ collect_events "2025-10-12" [("cal", [evA, evPastTimed])],
      (∀ sdt d, x.1.start = some sdt → truthy sdt.date = some d →
        pyStrLt d "2025-10-12" = false) ∧ x.1.status ≠ "cancelled") ∧
    (∀ b ∈ make_batches (collect_events "2025-10-12" [("cal", [evA, evPastTimed])]) 10,
      ∀ y ∈ b, y ∈ collect_events "2025-10-12" [("cal", [evA, evPastTimed])])) ∧
    collect_events "2025-10-12"
      [("cal", [{ evA with start := some { date := some "2020-02-02", dateTime := none } }])] = [] :=
  ⟨collect_excludes_past_allday "2025-10-12" [("cal", [evA, evPastTimed])] 10 (by decide),
   by decide⟩

/-- Claim C9, counterexample: an input holding one past item (a timed
event dated 2020-01-01) and one future item; the past item is collected
for processing and lands in a batch handed to the classifier, so the
collection step does not exclude every item whose start date is before
the current date. -/
theorem collect_includes_past_timed :
    (evPastTimed, "cal") ∈ collect_events "2025-10-12" [("cal", [evA, evPastTimed])] ∧
    (FilteredEvent.from_event evPastTimed "cal").start_date = some "2020-01-01" ∧
    pyStrLt "2020-01-01" "2025-10-12" = true ∧
    (evPastTimed, "cal") ∈
      (make_batches (collect_events "2025-10-12" [("cal", [evA, evPastTimed])]) 10).flatten := by
  decide

/-! ## Classifier client: Claims C2 and C10 -/

/-- Claim C2 (amended): when the response yields no parseable JSON (any
error raised inside the `try` body, including the no-JSON-structure and
decode errors), `_async_batch_classify_events` does raise internally,
but its own blanket `except Exception` handler catches the error and
returns a substitute result pairing every event of the batch with no
classification; the concurrency controller therefore observes a
completed call, not a failure, and split-retry is not triggered by
malformed responses. -/
theorem classify_error_swallowed (parse : String → Option (List Verdict))
    (content : String) (batch : List (Event × String)) (err : ClassifyError)
    (h : classifyBody parse content batch = Except.error err) :
    async_batch_classify_events parse (ApiOutcome.response content) batch =
      unclassified batch ∧
    oneCall parse (fun _ => CallBehavior.returns (ApiOutcome.response content))
      batch = some (unclassified batch) := by
  have h1 : async_batch_classify_events parse (ApiOutcome.response content)
      batch = unclassified batch := by
    unfold async_batch_classify_events
    by_cases hb : batch.isEmpty
    · rw [if_pos hb]
      rw [List.isEmpty_iff.mp hb]
      rfl
    · rw [if_neg hb]
      simp only [h]
  refine ⟨h1, ?_⟩
  unfold oneCall
  simp only [h1]

/-- Claim C2, witness: the amended theorem applied to a response with no
JSON structure at all. -/
theorem classify_error_swallowed_witness :
    classifyBody parseNone "no json here" [(evA, "cal")] =
      Except.error ClassifyError.noJsonStructure ∧
    (async_batch_classify_events parseNone (ApiOutcome.response "no json here")
        [(evA, "cal")] = unclassified [(evA, "cal")] ∧
      oneCall parseNone
        (fun _ => CallBehavior.returns (ApiOutcome.response "no json here"))
        [(evA, "cal")] = some (unclassified [(evA, "cal")])) :=
  ⟨by decide,
   classify_error_swallowed parseNone "no json here" [(evA, "cal")]
     ClassifyError.noJsonStructure (by decide)⟩

/-- Claim C2, counterexample: a concrete response from which no
extraction strategy yields JSON; the body raises a distinguishable
error, yet the call as the controller sees it completes with a
substitute all-unclassified result (`some`, not a failure), and the
controller files it as a success without any retry. -/
theorem malformed_response_reported_ok :
    classifyBody parseNone "no json here" [(evA, "cal")] =
      Except.error ClassifyError.noJsonStructure ∧
    oneCall parseNone behaveNoJson [(evA, "cal")] =
      some (unclassified [(evA, "cal")]) ∧
    handleBatch parseNone behaveNoJson [(evA, "cal")] =
      ([unclassified [(evA, "cal")]], [BatchAction.call [(evA, "cal")]]) :=
  ⟨by decide, by decide, by decide⟩

/-- Claim C10: a verdict object that matches an item's id but carries
none of the classification fields is filled with the fixed defaults
(`keep_event=false`, empty alignments, the fourth Eisenhower label,
confidence 0, placeholder reasoning); the item is therefore classified,
is discarded by the keep test for any threshold, and its record's
`needs_review` stays `false`. -/
theorem empty_verdict_gets_defaults (e : Event) (cal : String)
    (vs : List Verdict) (batch : List (Event × String)) (v : Verdict)
    (threshold : Rat) (hlook : lookupVerdict vs e.id = some v)
    (hk : v.keep_event = none) (hg : v.goal_alignment = none)
    (hf : v.focus_area_alignment = none) (hcat : v.eisenhower_category = none)
    (hcs : v.confidence_score = none) (hr : v.reasoning = none)
    (hmem : (e, cal) ∈ batch) :
    defaultedClassification v = defaultClassificationValue ∧
    (e, cal, some defaultClassificationValue) ∈ matchVerdicts vs batch ∧
    process_batch_item threshold (e, cal, some defaultClassificationValue) = none ∧
    (FilteredEvent.from_event e cal).needs_review = false := by
  have hd : defaultedClassification v = defaultClassificationValue := by
    simp [defaultedClassification, defaultClassificationValue, hk, hg, hf,
      hcat, hcs, hr]
  refine ⟨hd, ?_, ?_, rfl⟩
  · unfold matchVerdicts
    refine List.mem_map.mpr ⟨(e, cal), hmem, ?_⟩
    simp [hlook, hd]
  · unfold process_batch_item
    simp [defaultClassificationValue]

/-- Claim C10, witness: the theorem applied to the id-matched,
field-empty verdict fixture. -/
theorem empty_verdict_gets_defaults_witness :
    defaultedClassification emptyVerdict = defaultClassificationValue ∧
    (evA, "cal", some defaultClassificationValue) ∈
      matchVerdicts [emptyVerdict] [(evA, "cal")] ∧
    process_batch_item rat07 (evA, "cal", some defaultClassificationValue) = none ∧
    (FilteredEvent.from_event evA "cal").needs_review = false :=
  empty_verdict_gets_defaults evA "cal" [emptyVerdict] [(evA, "cal")]
    emptyVerdict rat07 (by decide) rfl rfl rfl rfl rfl rfl (by decide)

/-! ## Concurrency controller: Claim C3 -/

theorem classifyBody_ok (parse : String → Option (List Verdict))
    (content : String) (batch : List (Event × String))
    (r : List ClassifiedTriple)
    (h : classifyBody parse content batch = Except.ok r) :
    ∃ vs, r = matchVerdicts vs batch := by
  unfold classifyBody at h
  split at h
  · exact Except.noConfusion h
  · split at h
    · split at h
      · exact Except.noConfusion h
      · next vs _ =>
        injection h with h2
        exact ⟨vs, h2.symm⟩
    · exact Except.noConfusion h

theorem matchVerdicts_covers (vs : List Verdict) (batch : List (Event × String)) :
    ∀ x ∈ batch, ∃ cls, (x.1, x.2, cls) ∈ matchVerdicts vs batch := by
  intro x hx
  unfold matchVerdicts
  cases hl : lookupVerdict vs x.1.id with
  | none => exact ⟨none, List.mem_map.mpr ⟨x, hx, by simp [hl]⟩⟩
  | some v =>
    exact ⟨some (defaultedClassification v), List.mem_map.mpr ⟨x, hx, by simp [hl]⟩⟩

theorem unclassified_covers (batch : List (Event × String)) :
    ∀ x ∈ batch, (x.1, x.2, (none : Option EventClassification)) ∈ unclassified batch := by
  intro x hx
  exact List.mem_map.mpr ⟨x, hx, rfl⟩

theorem async_substitute (parse : String → Option (List Verdict))
    (content : String) (batch : List (Event × String)) (err : ClassifyError)
    (h : classifyBody parse content batch = Except.error err) :
    async_batch_classify_events parse (ApiOutcome.response content) batch =
      unclassified batch := by
  unfold async_batch_classify_events
  by_cases hb : batch.isEmpty
  · rw [if_pos hb]
    rw [List.isEmpty_iff.mp hb]
    rfl
  · rw [if_neg hb]
    simp only [h]

theorem async_apiFailure (parse : String → Option (List Verdict))
    (batch : List (Event × String)) :
    async_batch_classify_events parse ApiOutcome.apiFailure batch =
      unclassified batch := by
  unfold async_batch_classify_events
  by_cases hb : batch.isEmpty
  · rw [if_pos hb]
    rw [List.isEmpty_iff.mp hb]
    rfl
  · rw [if_neg hb]

theorem async_ok (parse : String → Option (List Verdict)) (content : String)
    (batch : List (Event × String)) (r : List ClassifiedTriple)
    (h : classifyBody parse content batch = Except.ok r)
    (hb : batch.isEmpty = false) :
    async_batch_classify_events parse (ApiOutcome.response content) batch = r := by
  unfold async_batch_classify_events
  rw [if_neg (by rw [hb]; exact Bool.false_ne_true)]
  simp only [h]

theorem async_batch_classify_covers (parse : String → Option (List Verdict))
    (api : ApiOutcome) (batch : List (Event × String)) :
    ∀ x ∈ batch, ∃ cls,
      (x.1, x.2, cls) ∈ async_batch_classify_events parse api batch := by
  intro x hx
  have hbne : batch.isEmpty = false := by
    cases hE : batch.isEmpty with
    | false => rfl
    | true =>
      rw [List.isEmpty_iff.mp hE] at hx
      simp at hx
  cases api with
  | apiFailure =>
    rw [async_apiFailure]
    exact ⟨none, unclassified_covers batch x hx⟩
  | response content =>
    cases hcb : classifyBody parse content batch with
    | error err =>
      rw [async_substitute parse content batch err hcb]
      exact ⟨none, unclassified_covers batch x hx⟩
    | ok r =>
      rw [async_ok parse content batch r hcb hbne]
      rcases classifyBody_ok parse content batch r hcb with ⟨vs, rfl⟩
      exact matchVerdicts_covers vs batch x hx

theorem async_batch_classify_length (parse : String → Option (List Verdict))
    (api : ApiOutcome) (batch : List (Event × String)) :
    (async_batch_classify_events parse api batch).length = batch.length := by
  by_cases hb : batch.isEmpty
  · rw [List.isEmpty_iff.mp hb]
    simp [async_batch_classify_events]
  · have hbne : batch.isEmpty = false := by
      cases hE : batch.isEmpty with
      | false => rfl
      | true => exact absurd hE hb
    cases api with
    | apiFailure =>
      rw [async_apiFailure]
      simp [unclassified]
    | response content =>
      cases hcb : classifyBody parse content batch with
      | error err =>
        rw [async_substitute parse content batch err hcb]
        simp [unclassified]
      | ok r =>
        rw [async_ok parse content batch r hcb hbne]
        rcases classifyBody_ok parse content batch r hcb with ⟨vs, rfl⟩
        simp [matchVerdicts]

theorem oneCall_covers (parse : String → Option (List Verdict))
    (behave : List (Event × String) → CallBehavior)
    (batch : List (Event × String)) (r : List ClassifiedTriple)
    (h : oneCall parse behave batch = some r) :
    ∀ x ∈ batch, ∃ cls, (x.1, x.2, cls) ∈ r := by
  unfold oneCall at h
  cases hbv : behave batch with
  | raises =>
    rw [hbv] at h
    cases h
  | returns api =>
    rw [hbv] at h
    injection h with h2
    rw [← h2]
    exact async_batch_classify_covers parse api batch

theorem oneCall_length (parse : String → Option (List Verdict))
    (behave : List (Event × String) → CallBehavior)
    (batch : List (Event × String)) (r : List ClassifiedTriple)
    (h : oneCall parse behave batch = some r) : r.length = batch.length := by
  unfold oneCall at h
  cases hbv : behave batch with
  | raises =>
    rw [hbv] at h
    cases h
  | returns api =>
    rw [hbv] at h
    injection h with h2
    rw [← h2]
    exact async_batch_classify_length parse api batch

theorem oneCall_not_isEmpty (parse : String → Option (List Verdict))
    (behave : List (Event × String) → CallBehavior)
    (batch : List (Event × String)) (r : List ClassifiedTriple)
    (h : oneCall parse behave batch = some r) (hne : batch ≠ []) :
    r.isEmpty = false := by
  cases hE : r.isEmpty with
  | false => rfl
  | true =>
    have hr : r = [] := List.isEmpty_iff.mp hE
    have hlen := oneCall_length parse behave batch r h
    rw [hr, List.length_nil] at hlen
    have hpos := List.length_pos.mpr hne
    omega

/-- Claim C3 (amended): when a batch of more than one item fails (its
classification call raised, the only controller-visible failure), the
controller splits it into the first `floor(n/2)` items and the
remainder, sleeps 2 seconds and retries the first half with one call.
If that retry call itself raises, the handler appends the whole original
batch unclassified and the second half is never called (no 1-second
sleep, no second retry call) — this is where the claim's
one-call-per-half description fails, see the counterexample.  If the
first retry call completes, the controller sleeps 1 second and retries
the second half with one call; when both retries complete with
all-unclassified substitutes, the output is exactly the two halves
unclassified, whose concatenation is the whole batch unclassified.  In
every case each item of the failed batch appears in the controller's
output, and the controller (a total function here, mirroring the
`try`/`except` that confines every retry error) lets no exception
escape. -/
theorem split_retry_behavior (parse : String → Option (List Verdict))
    (behave : List (Event × String) → CallBehavior)
    (batch : List (Event × String))
    (hfail : behave batch = CallBehavior.raises) (hlen : 1 < batch.length) :
    (batch.take (batch.length / 2)).length = batch.length / 2 ∧
    (batch.drop (batch.length / 2)).length = batch.length - batch.length / 2 ∧
    (∀ x ∈ batch, ∃ cls,
      (x.1, x.2, cls) ∈ (handleBatch parse behave batch).1.flatten) ∧
    (behave (batch.take (batch.length / 2)) = CallBehavior.raises →
      handleBatch parse behave batch =
        ([unclassified batch],
         [BatchAction.call batch, BatchAction.sleep 2,
          BatchAction.call (batch.take (batch.length / 2))])) ∧
    (∀ api1 api2,
      behave (batch.take (batch.length / 2)) = CallBehavior.returns api1 →
      behave (batch.drop (batch.length / 2)) = CallBehavior.returns api2 →
      (handleBatch parse behave batch).2 =
        [BatchAction.call batch, BatchAction.sleep 2,
         BatchAction.call (batch.take (batch.length / 2)), BatchAction.sleep 1,
         BatchAction.call (batch.drop (batch.length / 2))] ∧
      (async_batch_classify_events parse api1 (batch.take (batch.length / 2)) =
          unclassified (batch.take (batch.length / 2)) →
        async_batch_classify_events parse api2 (batch.drop (batch.length / 2)) =
          unclassified (batch.drop (batch.length / 2)) →
        (handleBatch parse behave batch).1 =
          [unclassified (batch.take (batch.length / 2)),
           unclassified (batch.drop (batch.length / 2))] ∧
        (handleBatch parse behave batch).1.flatten = unclassified batch)) := by
  have hone : oneCall parse behave batch = none := by
    unfold oneCall
    rw [hfail]
  have htakeNe : batch.take (batch.length / 2) ≠ [] := by
    intro hcon
    have hlc := congrArg List.length hcon
    simp only [List.length_take, List.length_nil] at hlc
    rw [Nat.min_eq_left (Nat.div_le_self _ _)] at hlc
    omega
  have hdropNe : batch.drop (batch.length / 2) ≠ [] := by
    intro hcon
    have hlc := congrArg List.length hcon
    simp only [List.length_drop, List.length_nil] at hlc
    have hdiv : batch.length / 2 < batch.length :=
      Nat.div_lt_self (by omega) (by omega)
    omega
  have hHB : handleBatch parse behave batch =
      ((retryFailedBatch parse behave batch).1,
       BatchAction.call batch :: (retryFailedBatch parse behave batch).2) := by
    unfold handleBatch
    rw [hone, if_pos hlen]
  refine ⟨by rw [List.length_take]; exact Nat.min_eq_left (Nat.div_le_self _ _),
    by rw [List.length_drop], ?_, ?_, ?_⟩
  · -- every item of the batch appears in the output
    intro x hx
    rw [hHB]
    cases h1 : oneCall parse behave (batch.take (batch.length / 2)) with
    | none =>
      have hRB : (retryFailedBatch parse behave batch).1 = [unclassified batch] := by
        simp only [retryFailedBatch, h1]
      rw [hRB]
      exact ⟨none, by
        simp only [List.flatten_cons, List.flatten_nil, List.append_nil]
        exact unclassified_covers batch x hx⟩
    | some r1 =>
      have hE1 := oneCall_not_isEmpty parse behave _ r1 h1 htakeNe
      cases h2 : oneCall parse behave (batch.drop (batch.length / 2)) with
      | none =>
        have hRB : (retryFailedBatch parse behave batch).1 =
            [r1] ++ [unclassified batch] := by
          simp only [retryFailedBatch, h1, h2, hE1]
          rfl
        rw [hRB]
        refine ⟨none, ?_⟩
        simp only [List.flatten_append, List.flatten_cons, List.flatten_nil,
          List.append_nil]
        exact List.mem_append_right _ (unclassified_covers batch x hx)
      | some r2 =>
        have hE2 := oneCall_not_isEmpty parse behave _ r2 h2 hdropNe
        have hRB : (retryFailedBatch parse behave batch).1 = [r1] ++ [r2] := by
          simp only [retryFailedBatch, h1, h2, hE1, hE2]
          rfl
        rw [hRB]
        have hx2 : x ∈ batch.take (batch.length / 2) ∨
            x ∈ batch.drop (batch.length / 2) := by
          rw [← List.mem_append, List.take_append_drop]
          exact hx
        rcases hx2 with hx2 | hx2
        · rcases oneCall_covers parse behave _ r1 h1 x hx2 with ⟨cls, hcls⟩
          refine ⟨cls, ?_⟩
          simp only [List.flatten_append, List.flatten_cons, List.flatten_nil,
            List.append_nil]
          exact List.mem_append_left _ hcls
        · rcases oneCall_covers parse behave _ r2 h2 x hx2 with ⟨cls, hcls⟩
          refine ⟨cls, ?_⟩
          simp only [List.flatten_append, List.flatten_cons, List.flatten_nil,
            List.append_nil]
          exact List.mem_append_right _ hcls
  · -- first retry call raises: second half never called
    intro hret
    rw [hHB]
    have h1 : oneCall parse behave (batch.take (batch.length / 2)) = none := by
      unfold oneCall
      rw [hret]
    have hRB : retryFailedBatch parse behave batch =
        ([unclassified batch],
         [BatchAction.sleep 2, BatchAction.call (batch.take (batch.length / 2))]) := by
      simp only [retryFailedBatch, h1]
    rw [hRB]
  · -- both retry calls complete
    intro api1 api2 hret1 hret2
    have h1 : oneCall parse behave (batch.take (batch.length / 2)) =
        some (async_batch_classify_events parse api1 (batch.take (batch.length / 2))) := by
      unfold oneCall
      rw [hret1]
    have h2 : oneCall parse behave (batch.drop (batch.length / 2)) =
        some (async_batch_classify_events parse api2 (batch.drop (batch.length / 2))) := by
      unfold oneCall
      rw [hret2]
    have hE1 := oneCall_not_isEmpty parse behave _ _ h1 htakeNe
    have hE2 := oneCall_not_isEmpty parse behave _ _ h2 hdropNe
    constructor
    · rw [hHB]
      have hRB : (retryFailedBatch parse behave batch).2 =
          [BatchAction.sleep 2, BatchAction.call (batch.take (batch.length / 2)),
           BatchAction.sleep 1, BatchAction.call (batch.drop (batch.length / 2))] := by
        simp only [retryFailedBatch, h1, h2]
      rw [hRB]
    · intro hu1 hu2
      have hE1u : (unclassified (batch.take (batch.length / 2))).isEmpty = false := by
        rw [← hu1]
        exact hE1
      have hE2u : (unclassified (batch.drop (batch.length / 2))).isEmpty = false := by
        rw [← hu2]
        exact hE2
      have hres : (handleBatch parse behave batch).1 =
          [unclassified (batch.take (batch.length / 2)),
           unclassified (batch.drop (batch.length / 2))] := by
        rw [hHB]
        simp [retryFailedBatch, h1, h2, hu1, hu2, hE1u, hE2u]
      refine ⟨hres, ?_⟩
      rw [hres]
      simp only [List.flatten_cons, List.flatten_nil, List.append_nil]
      unfold unclassified
      rw [← List.map_append, List.take_append_drop]

/-- Claim C3, witness: the amended theorem applied to a concrete batch
of four items whose classification calls always raise: the halves have
sizes 2 and 2, every item appears unclassified, and the trace stops
after the first half's retry. -/
theorem split_retry_behavior_witness :
    (batch4.take (batch4.length / 2)).length = batch4.length / 2 ∧
    (∀ x ∈ batch4, ∃ cls,
      (x.1, x.2, cls) ∈ (handleBatch parseKeepFalse behaveRaise batch4).1.flatten) ∧
    handleBatch parseKeepFalse behaveRaise batch4 =
      ([unclassified batch4],
       [BatchAction.call batch4, BatchAction.sleep 2,
        BatchAction.call (batch4.take (batch4.length / 2))]) := by
  have h := split_retry_behavior parseKeepFalse behaveRaise batch4 rfl (by decide)
  exact ⟨h.1, h.2.2.1, h.2.2.2.1 rfl⟩

/-- Claim C3, counterexample: a batch of four items whose classifier
call always fails by raising.  The claim says both halves are each
retried with a single classification call after backoffs of 2s and 1s;
in fact the first half's retry raises, the whole batch is appended
unclassified, and the second half is never called — the trace contains
no 1-second sleep and no call on the second half. -/
theorem split_retry_skips_second_half :
    (handleBatch parseKeepFalse behaveRaise batch4).2 =
      [BatchAction.call batch4, BatchAction.sleep 2,
       BatchAction.call (batch4.take 2)] ∧
    BatchAction.sleep 1 ∉ (handleBatch parseKeepFalse behaveRaise batch4).2 ∧
    BatchAction.call (batch4.drop 2) ∉ (handleBatch parseKeepFalse behaveRaise batch4).2 ∧
    (handleBatch parseKeepFalse behaveRaise batch4).1 = [unclassified batch4] :=
  ⟨by decide, by decide, by decide, by decide⟩

/-! ## Full result view: Claim C1 -/

theorem process_batch_item_some (threshold : Rat) (t : ClassifiedTriple)
    (fe : FilteredEvent) (h : process_batch_item threshold t = some fe) :
    fe.needs_review = true ∨
      ∃ c, fe.classification = some c ∧ c.keep_event = true ∧
        threshold ≤ c.confidence_score := by
  obtain ⟨e, cal, cls⟩ := t
  cases cls with
  | none =>
    simp only [process_batch_item] at h
    injection h with h2
    rw [← h2]
    exact Or.inl rfl
  | some c =>
    simp only [process_batch_item] at h
    by_cases hk : (c.keep_event && decide (threshold ≤ c.confidence_score)) = true
    · rw [if_pos hk] at h
      injection h with h2
      rw [← h2]
      rw [Bool.and_eq_true] at hk
      exact Or.inr ⟨c, rfl, hk.1, of_decide_eq_true hk.2⟩
    · rw [if_neg hk] at h
      cases h

theorem pipeline_processed_shape (parse : String → Option (List Verdict))
    (behave : List (Event × String) → CallBehavior) (threshold : Rat)
    (bs : Nat) (today : String) (calendars : List (String × List Event)) :
    ∀ fe ∈ pipeline_processed parse behave threshold bs today calendars,
      fe.needs_review = true ∨
        ∃ c, fe.classification = some c ∧ c.keep_event = true ∧
          threshold ≤ c.confidence_score := by
  intro fe hfe
  simp only [pipeline_processed, process_batch_results, List.mem_flatMap] at hfe
  rcases hfe with ⟨br, _, hfm⟩
  rcases List.mem_filterMap.mp hfm with ⟨t, _, heq⟩
  exact process_batch_item_some threshold t fe heq

/-- Claim C1 (amended): the `filtered_events` list returned by
`filter_events` holds exactly one entry per id of the processed
survivors — the items whose classification failed (kept with
`needs_review=true`) and the items kept by the filter
(`keep_event=true` and confidence at least the threshold).  Items whose
classification returned `keep_event=false` or a confidence below the
threshold are dropped from the returned list (as are items skipped at
collection), so not every input item appears in it: see the
counterexample. -/
theorem filter_result_view (parse : String → Option (List Verdict))
    (behave : List (Event × String) → CallBehavior) (threshold : Rat)
    (bs : Nat) (today : String) (calendars : List (String × List Event)) :
    (∀ fe ∈ filter_events_result parse behave threshold bs today calendars,
      fe ∈ pipeline_processed parse behave threshold bs today calendars) ∧
    ((filter_events_result parse behave threshold bs today calendars).map
      FilteredEvent.id).Nodup ∧
    (∀ fe ∈ pipeline_processed parse behave threshold bs today calendars,
      ∃ d ∈ filter_events_result parse behave threshold bs today calendars,
        d.id = fe.id) ∧
    (∀ fe ∈ filter_events_result parse behave threshold bs today calendars,
      fe.needs_review = true ∨
        ∃ c, fe.classification = some c ∧ c.keep_event = true ∧
          threshold ≤ c.confidence_score) := by
  have hFR : filter_events_result parse behave threshold bs today calendars =
      sort_events (deduplicate_events
        (pipeline_processed parse behave threshold bs today calendars)) := rfl
  have hperm := sort_events_perm (deduplicate_events
    (pipeline_processed parse behave threshold bs today calendars))
  refine ⟨?_, ?_, ?_, ?_⟩
  · intro fe hfe
    rw [hFR] at hfe
    exact deduplicate_events_sound _ fe (hperm.mem_iff.mp hfe)
  · rw [hFR]
    exact (hperm.map FilteredEvent.id).nodup_iff.mpr
      (deduplicate_events_ids_nodup _)
  · intro fe hfe
    rcases deduplicate_events_cover _ fe hfe with ⟨d, hd, hid⟩
    exact ⟨d, by rw [hFR]; exact hperm.mem_iff.mpr hd, hid⟩
  · intro fe hfe
    rw [hFR] at hfe
    exact pipeline_processed_shape parse behave threshold bs today calendars fe
      (deduplicate_events_sound _ fe (hperm.mem_iff.mp hfe))

/-- Claim C1, witness: the amended theorem applied to a concrete run in
which the single collected item is classified with `keep_event=false`. -/
theorem filter_result_view_witness :
    (∀ fe ∈ filter_events_result parseKeepFalse behaveOk rat07 10 "2025-01-01"
        [("cal", [evA])],
      fe ∈ pipeline_processed parseKeepFalse behaveOk rat07 10 "2025-01-01"
        [("cal", [evA])]) ∧
    ((filter_events_result parseKeepFalse behaveOk rat07 10 "2025-01-01"
      [("cal", [evA])]).map FilteredEvent.id).Nodup ∧
    (∀ fe ∈ pipeline_processed parseKeepFalse behaveOk rat07 10 "2025-01-01"
        [("cal", [evA])],
      ∃ d ∈ filter_events_result parseKeepFalse behaveOk rat07 10 "2025-01-01"
        [("cal", [evA])], d.id = fe.id) ∧
    (∀ fe ∈ filter_events_result parseKeepFalse behaveOk rat07 10 "2025-01-01"
        [("cal", [evA])],
      fe.needs_review = true ∨
        ∃ c, fe.classification = some c ∧ c.keep_event = true ∧
          rat07 ≤ c.confidence_score) :=
  filter_result_view parseKeepFalse behaveOk rat07 10 "2025-01-01"
    [("cal", [evA])]

/-- Claim C1, counterexample: a run whose single input item is eligible,
is collected, and is classified (with `keep_event=false`, confidence
0.9); the returned `filtered_events` list is empty, so the item does not
appear in the full result view at all — it was dropped, not kept. -/
theorem discarded_item_missing_from_result :
    filter_events_result parseKeepFalse behaveOk rat07 10 "2025-01-01"
      [("cal", [evA])] = [] ∧
    (evA, "cal") ∈ collect_events "2025-01-01" [("cal", [evA])] ∧
    (process_batches_concurrently parseKeepFalse behaveOk
      (make_batches (collect_events "2025-01-01" [("cal", [evA])]) 10)).flatten =
      [(evA, "cal", some (defaultedClassification verdictKeepFalse))] ∧
    (defaultedClassification verdictKeepFalse).keep_event = false :=
  ⟨by decide, by decide, by decide, by decide⟩

/-! ## Persistence: Claims C5 and C8 -/

theorem path_ne_temp (p : String) : p ≠ p ++ ".temp" := by
  intro h
  have h2 := congrArg String.length h
  rw [String.length_append] at h2
  have h5 : (".temp" : String).length = 5 := rfl
  omega

/-- Claim C5 (amended): `save_filtered_events`, the final write of the
run result, serialises directly to the resolved target path after
creating its directory — it writes no `.temp` sibling and performs no
atomic rename, unlike the interim snapshots — and a failure of the dump
is re-raised to the caller as the run's failure (success otherwise). -/
theorem final_save_direct (filePath cfgPath : Option String) (writeOk : Bool) :
    ((save_filtered_events filePath cfgPath writeOk).1 =
      (if dirname (resolveOutputPath filePath cfgPath) = "" then []
       else [FsOp.makeDirs (dirname (resolveOutputPath filePath cfgPath))]) ++
      [FsOp.write (resolveOutputPath filePath cfgPath)]) ∧
    (∀ s d, FsOp.replace s d ∉ (save_filtered_events filePath cfgPath writeOk).1) ∧
    FsOp.write (resolveOutputPath filePath cfgPath ++ ".temp") ∉
      (save_filtered_events filePath cfgPath writeOk).1 ∧
    ((save_filtered_events filePath cfgPath writeOk).2 = Except.ok () ↔
      writeOk = true) := by
  refine ⟨rfl, ?_, ?_, ?_⟩
  · intro s d hmem
    by_cases hd : dirname (resolveOutputPath filePath cfgPath) = "" <;>
      simp [save_filtered_events, hd] at hmem
  · intro hmem
    have hne : resolveOutputPath filePath cfgPath ≠
        resolveOutputPath filePath cfgPath ++ ".temp" :=
      path_ne_temp (resolveOutputPath filePath cfgPath)
    by_cases hd : dirname (resolveOutputPath filePath cfgPath) = "" <;>
      simp [save_filtered_events, hd] at hmem <;>
      exact hne hmem.symm
  · cases writeOk <;> simp [save_filtered_events]

/-- Claim C5, witness: the amended theorem applied to a concrete target
path with a failing dump: the attempted operations are the direct write
and the outcome is not success. -/
theorem final_save_direct_witness :
    ((save_filtered_events (some "out.json") none false).1 =
      (if dirname (resolveOutputPath (some "out.json") none) = "" then []
       else [FsOp.makeDirs (dirname (resolveOutputPath (some "out.json") none))]) ++
      [FsOp.write (resolveOutputPath (some "out.json") none)]) ∧
    (∀ s d, FsOp.replace s d ∉ (save_filtered_events (some "out.json") none false).1) ∧
    FsOp.write (resolveOutputPath (some "out.json") none ++ ".temp") ∉
      (save_filtered_events (some "out.json") none false).1 ∧
    ((save_filtered_events (some "out.json") none false).2 = Except.ok () ↔
      false = true) :=
  final_save_direct (some "out.json") none false

/-- Claim C5, counterexample: for a concrete target the final write's
operations are a single direct write of the target — no `.temp` write
and no rename — while an interim snapshot of the same target writes the
`.temp` sibling and atomically replaces the target: the final write does
not follow the temp-file-then-atomic-rename pattern. -/
theorem final_save_not_atomic :
    (save_filtered_events (some "out.json") none true).1 = [FsOp.write "out.json"] ∧
    FsOp.write "out.json.temp" ∉ (save_filtered_events (some "out.json") none true).1 ∧
    FsOp.replace "out.json.temp" "out.json" ∉
      (save_filtered_events (some "out.json") none true).1 ∧
    (interim_save (some "out.json") 5 1 1 [] true).1 =
      [FsOp.write "out.json.temp", FsOp.replace "out.json.temp" "out.json"] :=
  ⟨by decide, by decide, by decide, by decide⟩

/-- Claim C8 (amended): after every fifth completed batch the interim
save deduplicates and sorts all events processed so far — the kept items
together with the needs-review items, which is wider than the spec's
deduplicated-kept view (see the counterexample) — pairs them with the
run metadata, writes the snapshot to the `.temp` sibling of the resolved
path and atomically replaces the path with it.  A failing dump is
swallowed: nothing replaces the target, no operation writes the target
path itself, and the save reports no snapshot while the run continues
(the block's handler only logs).  On a count that is not a multiple of
five, nothing is attempted. -/
theorem interim_save_behavior (cfgPath : Option String)
    (count tot totB : Nat) (events : List FilteredEvent) (writeOk : Bool) :
    (count % 5 = 0 → writeOk = true →
      interim_save cfgPath count tot totB events writeOk =
        (interimPre cfgPath ++
          [FsOp.write (interimPath cfgPath ++ ".temp"),
           FsOp.replace (interimPath cfgPath ++ ".temp") (interimPath cfgPath)],
         some { filtered_events := sort_events (deduplicate_events events)
                metadata :=
                  { total_events_processed := tot
                    events_retained :=
                      (sort_events (deduplicate_events events)).length
                    batches_processed := count
                    total_batches := totB } })) ∧
    (count % 5 = 0 → writeOk = false →
      (interim_save cfgPath count tot totB events writeOk).1 =
        interimPre cfgPath ++ [FsOp.write (interimPath cfgPath ++ ".temp")] ∧
      (interim_save cfgPath count tot totB events writeOk).2 = none ∧
      FsOp.write (interimPath cfgPath) ∉
        (interim_save cfgPath count tot totB events writeOk).1 ∧
      (∀ s, FsOp.replace s (interimPath cfgPath) ∉
        (interim_save cfgPath count tot totB events writeOk).1)) ∧
    (count % 5 ≠ 0 →
      interim_save cfgPath count tot totB events writeOk = ([], none)) := by
  refine ⟨?_, ?_, ?_⟩
  · intro h5 hOk
    subst hOk
    unfold interim_save
    rw [if_pos h5]
    rfl
  · intro h5 hFail
    subst hFail
    have hops : (interim_save cfgPath count tot totB events false).1 =
        interimPre cfgPath ++ [FsOp.write (interimPath cfgPath ++ ".temp")] := by
      unfold interim_save
      rw [if_pos h5]
      rfl
    have hsnap : (interim_save cfgPath count tot totB events false).2 = none := by
      unfold interim_save
      rw [if_pos h5]
      rfl
    refine ⟨hops, hsnap, ?_, ?_⟩
    · intro hmem
      rw [hops] at hmem
      rcases List.mem_append.mp hmem with hmem | hmem
      · cases cfgPath <;> simp [interimPre] at hmem
      · simp only [List.mem_singleton] at hmem
        injection hmem with h2
        exact path_ne_temp (interimPath cfgPath) h2
    · intro s hmem
      rw [hops] at hmem
      rcases List.mem_append.mp hmem with hmem | hmem
      · cases cfgPath <;> simp [interimPre] at hmem
      · simp only [List.mem_singleton] at hmem
        cases hmem
  · intro h5
    unfold interim_save
    rw [if_neg h5]

/-- Claim C8, witness: the amended theorem applied at the fifth
completed batch with a successful dump over a processed list holding one
needs-review event. -/
theorem interim_save_behavior_witness :
    interim_save (some "out.json") 5 1 1 [reviewFe] true =
      (interimPre (some "out.json") ++
        [FsOp.write (interimPath (some "out.json") ++ ".temp"),
         FsOp.replace (interimPath (some "out.json") ++ ".temp")
           (interimPath (some "out.json"))],
       some { filtered_events := sort_events (deduplicate_events [reviewFe])
              metadata :=
                { total_events_processed := 1
                  events_retained :=
                    (sort_events (deduplicate_events [reviewFe])).length
                  batches_processed := 5
                  total_batches := 1 } }) :=
  (interim_save_behavior (some "out.json") 5 1 1 [reviewFe] true).1 rfl rfl

/-- Claim C8, counterexample: with one processed needs-review event the
snapshot that replaces the target contains that event, while the
deduplicated-kept view of the same processed events — as the spec
defines it — is empty: what the interim save serialises is not the
deduplicated-kept view. -/
theorem interim_snapshot_not_kept_view :
    (interim_save (some "out.json") 5 1 1 [reviewFe] true).2 =
      some { filtered_events := [reviewFe]
             metadata :=
               { total_events_processed := 1
                 events_retained := 1
                 batches_processed := 5
                 total_batches := 1 } } ∧
    reviewFe.classification = none ∧
    reviewFe.needs_review = true ∧
    specDeduplicatedKeptView rat07 [reviewFe] = [] :=
  ⟨by decide, by decide, by decide, by decide⟩

end GCalFilter
